import Mathlib

/-!
Verification development for the `c-args-parser` single-header C library
(`src/c-args-parser.h`).  The parsing core is shallowly embedded: command
trees, option descriptors and positional schemas become Lean structures,
the per-level option scanner and the dispatcher become executable Lean
functions, and callback/handler invocations are recorded as an explicit
event trace (the only effect the C engine performs besides diagnostics).

Machine integers are modelled as `Nat`/`Int` with explicit `% 2^w`
reductions exactly where the C code can overflow (the `uint8_t` group
counters and the `uint32_t` group-policy masks).
-/

set_option maxHeartbeats 4000000

namespace CArgsParser

/-! ### Return codes (from the header's `#define` block) -/

def CARGS_OK : Int := 0
def CARGS_DONE : Int := 1
def CARGS_ERR_UNKNOWN : Int := -1
def CARGS_ERR_MISSING_VAL : Int := -2
def CARGS_ERR_BAD_FORMAT : Int := -3
def CARGS_ERR_GROUP : Int := -4
def CARGS_ERR_POSITIONAL : Int := -5
def CARGS_ERR_TOO_MANY : Int := -6

def CARGS_GRP_NONE : Nat := 0
def CARGS_GRP_XOR : Nat := 1
def CARGS_GRP_REQ_ONE : Nat := 2

def CARGS_POS_INF : Nat := 65535

/-! ### Data model (`cargs_opt`, `cargs_pos`, `cargs_env`, `cargs_cmd`) -/

/-- Argument kinds `CARGS_ARG_NONE / REQUIRED / OPTIONAL`. -/
inductive CArgKind where
  | kNone
  | kRequired
  | kOptional
deriving DecidableEq, Repr

/-- One option descriptor (C `cargs_opt`).  `long_name = none` models a NULL
`long_name` pointer and `short_name = none` models a zero `short_name` char.
The help/metavar strings are presentation-only and omitted.  `cb` records
whether the callback pointer is non-NULL; the callback's return value is
supplied externally (see `Ctx.cbRet`) and its invocations are traced as
events. -/
structure cargs_opt where
  long_name : Option String
  short_name : Option Char
  arg : CArgKind
  cb : Bool
  env : Option String
  defv : Option String
  group : Nat
  group_policy : Nat
deriving DecidableEq, Repr

/-- One positional schema segment (C `cargs_pos`, `min`/`max` are `uint16_t`;
`max = 65535` is the `CARGS_POS_INF` sentinel).  Label strings omitted. -/
structure cargs_pos where
  min : Nat
  max : Nat
deriving DecidableEq, Repr

/-- Global configuration (C `cargs_env`); only the fields the parsing core
reads.  `version`/`author` model the nullable string pointers. -/
structure cargs_env where
  auto_help : Bool
  auto_version : Bool
  auto_author : Bool
  version : Option String
  author : Option String
deriving DecidableEq, Repr

/-- One command-tree node (C `cargs_cmd`).  `run = some h` models a non-NULL
handler pointer with identifier `h` (its return value comes from
`Ctx.runRet`). -/
inductive cargs_cmd where
  | mk : Option String → List cargs_opt → List cargs_cmd → List String →
      List cargs_pos → Option Nat → cargs_cmd

def cargs_cmd.name : cargs_cmd → Option String
  | .mk n _ _ _ _ _ => n

def cargs_cmd.opts : cargs_cmd → List cargs_opt
  | .mk _ o _ _ _ _ => o

def cargs_cmd.subs : cargs_cmd → List cargs_cmd
  | .mk _ _ s _ _ _ => s

def cargs_cmd.aliases : cargs_cmd → List String
  | .mk _ _ _ a _ _ => a

def cargs_cmd.pos : cargs_cmd → List cargs_pos
  | .mk _ _ _ _ p _ => p

def cargs_cmd.run : cargs_cmd → Option Nat
  | .mk _ _ _ _ _ r => r

/-- External behaviour the engine consumes: the process environment
(`getenv`), each option callback's return value, and each handler's return
value.  The engine itself only sequences these. -/
structure Ctx where
  envc : Option cargs_env
  getEnv : String → Option String
  cbRet : cargs_opt → Option String → Int
  runRet : Nat → List String → Int

/-- Trace of the engine's observable actions: option-callback invocations,
builtin output (help/version/author), and handler invocation. -/
inductive CEvent where
  | call (o : cargs_opt) (v : Option String)
  | printed (what : String)
  | run (handler : Nat) (args : List String)
deriving DecidableEq, Repr

/-! ### Small helpers from the source -/

/-- `env && env->auto_help` for a nullable `cargs_env` pointer. -/
def autoHelp : Option cargs_env → Bool
  | some e => e.auto_help
  | none => false

/-- `env && env->auto_version && env->version` (the version builtin fires only
when the toggle is on and the version string is non-NULL). -/
def autoVersionOk : Option cargs_env → Bool
  | some e => e.auto_version && e.version.isSome
  | none => false

/-- `env && env->auto_author && env->author`. -/
def autoAuthorOk : Option cargs_env → Bool
  | some e => e.auto_author && e.author.isSome
  | none => false

/-- `cargs_find_long`: first option whose non-NULL long name equals `name`. -/
def cargs_find_long (opts : List cargs_opt) (name : String) : Option cargs_opt :=
  opts.find? (fun o => o.long_name == some name)

/-- `cargs_find_short`: first option whose short char equals `c` (`c` comes
from a token, hence is never the NUL terminator). -/
def cargs_find_short (opts : List cargs_opt) (c : Char) : Option cargs_opt :=
  opts.find? (fun o => o.short_name == some c)

/-- `cargs_token_looks_numeric` from the source: value-lookahead heuristic for
OPTIONAL arguments. -/
def cargs_token_looks_numeric (s : String) : Bool :=
  match s.data with
  | [] => false
  | c :: rest =>
    if c = '+' ∨ c = '-' then
      match rest with
      | [] => false
      | d :: rest2 =>
        if d.isDigit then true
        else if d = '.' then
          match rest2 with
          | e :: _ => e.isDigit
          | [] => false
        else if d = '0' then
          match rest2 with
          | e :: _ => decide (e = 'x' ∨ e = 'X')
          | [] => false
        else false
    else c.isDigit

/-- The shared lookahead condition for OPTIONAL options (source lines 823-824
and 888-889): take the next token as the value iff it is not `--` and either
does not start with `-` or looks numeric. -/
def takeNextAsOptValue (nxt : String) : Bool :=
  !(nxt == "--") && (!(nxt.data.head? == some '-') || cargs_token_looks_numeric nxt)

/-! ### Group counters and masks

The C counters are a `uint8_t counts[33]` array and the masks are `uint32_t`
accumulated with `|= (1ull << group)`; the assignment truncates to 32 bits,
which is modelled by the explicit `% 2^32`. -/

def countsInit : List Nat := List.replicate 33 0

/-- `if (o->group && o->group < MAXG) counts[o->group]++` with `uint8_t`
wrap-around. -/
def bumpGroup (counts : List Nat) (g : Nat) : List Nat :=
  if 0 < g ∧ g < 33 then counts.set g ((counts.getD g 0 + 1) % 256) else counts

/-- The `xor_mask`/`req_mask` pair computed at the top of
`cargs_parse_opts_level`.  Each `|=` lands in a `uint32_t`, hence the
`% 2^32` (this is what silently drops group id 32). -/
def cargs_group_masks (opts : List cargs_opt) : Nat × Nat :=
  opts.foldl
    (fun m o =>
      if 0 < o.group ∧ o.group < 33 then
        ((if o.group_policy = CARGS_GRP_XOR then (m.1 ||| (1 <<< o.group)) % 2 ^ 32 else m.1),
         (if o.group_policy = CARGS_GRP_REQ_ONE then (m.2 ||| (1 <<< o.group)) % 2 ^ 32 else m.2))
      else m)
    (0, 0)

/-- The group-policy enforcement loop at the end of `cargs_parse_opts_level`
(`for g = 1..32`): returns `some code` on the first violation. -/
def cargs_enforce_groups (masks : Nat × Nat) (counts : List Nat) : Option Int :=
  (List.range' 1 32).findSome? (fun g =>
    if (masks.1 &&& (1 <<< g)) ≠ 0 ∧ 1 < counts.getD g 0 then some CARGS_ERR_GROUP
    else if (masks.2 &&& (1 <<< g)) ≠ 0 ∧ counts.getD g 0 ≠ 1 then some CARGS_ERR_GROUP
    else none)

/-! ### Environment/default overlay (`cargs_apply_env_defaults_level`) -/

/-- For each option in declaration order: resolve `getenv(o->env)`, falling
back to the static default; when a value is resolved and the callback is
non-NULL, invoke it (the return value is ignored by the C code) and bump the
option's group counter.  Returns the emitted events and updated counters. -/
def cargs_apply_env_defaults_level (ctx : Ctx) (opts : List cargs_opt)
    (counts : List Nat) : List CEvent × List Nat :=
  match opts with
  | [] => ([], counts)
  | o :: rest =>
    let val : Option String :=
      match o.env with
      | some e =>
        match ctx.getEnv e with
        | some v => some v
        | none => o.defv
      | none => o.defv
    match val with
    | some v =>
      if o.cb then
        let next := cargs_apply_env_defaults_level ctx rest (bumpGroup counts o.group)
        (CEvent.call o (some v) :: next.1, next.2)
      else cargs_apply_env_defaults_level ctx rest counts
    | none => cargs_apply_env_defaults_level ctx rest counts

/-! ### Positional validation (`cargs_validate_positional`) -/

/-- Conversion of the `unsigned` sums to `int` for the comparisons
(two's-complement wrap, as on the library's target platforms). -/
def int_of_uint32 (n : Nat) : Int :=
  if n < 2 ^ 31 then (n : Int) else (n : Int) - 2 ^ 32

/-- Accumulator state of the validation loop. -/
structure PosAcc where
  smin : Nat
  smax : Nat
  inf : Bool
deriving DecidableEq, Repr

/-- One iteration of the summing loop: `sum_min += min` always, `sum_max +=
max` unless the segment is unbounded (both sums are C `unsigned`). -/
def cargs_pos_step (a : PosAcc) (p : cargs_pos) : PosAcc :=
  { smin := (a.smin + p.min) % 2 ^ 32
    smax := if p.max = CARGS_POS_INF then a.smax else (a.smax + p.max) % 2 ^ 32
    inf := a.inf || decide (p.max = CARGS_POS_INF) }

/-- `cargs_validate_positional`: empty schema always passes; otherwise the
leftover count is checked against the aggregated minima/maxima. -/
def cargs_validate_positional (pos : List cargs_pos) (argc : Int) : Int :=
  if pos = [] then CARGS_OK
  else
    let a := pos.foldl cargs_pos_step ⟨0, 0, false⟩
    if argc < int_of_uint32 a.smin then CARGS_ERR_POSITIONAL
    else if ¬a.inf ∧ int_of_uint32 a.smax < argc then CARGS_ERR_TOO_MANY
    else CARGS_OK

/-! ### Typed converter: byte-size parsing (`cargs_read_size`) -/

/-- ASCII `toupper` (C locale). -/
def upChar (c : Char) : Char :=
  if 'a' ≤ c ∧ c ≤ 'z' then Char.ofNat (c.toNat - 32) else c

def isSpaceTab (c : Char) : Bool := c = ' ' ∨ c = '\t'

def digitsVal (ds : List Char) : Nat :=
  ds.foldl (fun a c => a * 10 + (c.toNat - 48)) 0

/-- Exponent part of a decimal literal: consumes `e`/`E`, an optional sign and
at least one digit, yielding the signed decimal exponent; otherwise consumes
nothing. -/
def expPart (l : List Char) : Int × List Char :=
  match l with
  | e :: r =>
    if e = 'e' ∨ e = 'E' then
      let sr : Int × List Char :=
        match r with
        | '+' :: rr => (1, rr)
        | '-' :: rr => (-1, rr)
        | _ => (1, r)
      let ed := sr.2.takeWhile Char.isDigit
      if ed = [] then (0, l)
      else (sr.1 * (digitsVal ed : Int), sr.2.dropWhile Char.isDigit)
    else (0, l)
  | [] => (0, l)

/-- Modelled from libc: `strtod` restricted to decimal literals (optional
leading whitespace, optional sign, digits with optional fraction and
exponent).  The value is returned exactly, as a scaled decimal `m * 10^e`
(first component `m : Int`, second `e : Int`).  Hexadecimal floats,
infinities, NaNs and double rounding are not modelled; none of them arise in
the claims under verification. -/
def parse_strtod (l : List Char) : Option ((Int × Int) × List Char) :=
  let l1 := l.dropWhile (fun c =>
    c = ' ' ∨ c = '\t' ∨ c = '\n' ∨ c = '\r' ∨ c = '\x0B' ∨ c = '\x0C')
  let sl : Int × List Char :=
    match l1 with
    | '+' :: r => (1, r)
    | '-' :: r => (-1, r)
    | _ => (1, l1)
  let ip := sl.2.takeWhile Char.isDigit
  let l3 := sl.2.dropWhile Char.isDigit
  let fl : List Char × List Char :=
    match l3 with
    | '.' :: r => (r.takeWhile Char.isDigit, r.dropWhile Char.isDigit)
    | _ => ([], l3)
  if ip.length + fl.1.length = 0 then none
  else
    let ex := expPart fl.2
    some ((sl.1 * (digitsVal (ip ++ fl.1) : Int), ex.1 - (fl.1.length : Int)), ex.2)

/-- Unit powers of the `K/M/G/T/P/E` switch cases (the source spells the
multipliers out as products `k2*k2*...`; power `pw` products of `1024.0` and
`1000.0` up to `pw = 6` are exact doubles, so `Nat` powers are faithful). -/
def letterPow (c : Char) : Option Nat :=
  if c = 'K' then some 1
  else if c = 'M' then some 2
  else if c = 'G' then some 3
  else if c = 'T' then some 4
  else if c = 'P' then some 5
  else if c = 'E' then some 6
  else none

/-- The unit-suffix switch of `cargs_read_size` (source lines 1005-1059):
given the text after the numeric literal (whitespace already skipped),
returns the multiplier and the unconsumed remainder, or `none` for an
unrecognized unit letter.  `b`/`c` are `toupper(end[1])`/`toupper(end[2])`
with NUL when past the end of the token. -/
def cargs_size_suffix (prefer_iec : Bool) (l : List Char) : Option (Nat × List Char) :=
  match l with
  | [] => some (1, [])
  | a0 :: rest =>
    let a := upChar a0
    let b := upChar (l.getD 1 (Char.ofNat 0))
    let c := upChar (l.getD 2 (Char.ofNat 0))
    if a = 'B' then some (1, rest)
    else
      match letterPow a with
      | none => none
      | some pw =>
        let mult := if b = 'I' then 1024 ^ pw else if prefer_iec then 1024 ^ pw else 1000 ^ pw
        let adv :=
          if b = 'I' ∧ (c = 'B' ∨ c = Char.ofNat 0) then (if c = 'B' then 3 else 2)
          else if b = 'B' then 2 else 1
        some (mult, l.drop adv)

/-- `bytes > (double)UINT64_MAX` for the exact scaled decimal `m * 10^e`. -/
def scaledGtUInt64Max (m e : Int) : Bool :=
  if 0 ≤ e then (2 : Int) ^ 64 < m * 10 ^ e.toNat
  else (2 : Int) ^ 64 * 10 ^ (-e).toNat < m

/-- `(uint64_t)(bytes + 0.5)` (truncation of the non-negative double), i.e.
`⌊m * 10^e + 1/2⌋`, computed exactly over `Int`. -/
def scaledRoundHalfUp (m e : Int) : Int :=
  if 0 ≤ e then m * 10 ^ e.toNat
  else (2 * m + 10 ^ (-e).toNat).fdiv (2 * 10 ^ (-e).toNat)

/-- `cargs_read_size`: float literal, optional whitespace, optional unit
suffix, optional whitespace; rejects other trailing content, negative or
out-of-`uint64`-range results; rounds to nearest via `(uint64_t)(bytes+0.5)`. -/
def cargs_read_size (s : String) (prefer_iec : Bool) : Option Nat :=
  if s.data = [] then none
  else
    match parse_strtod s.data with
    | none => none
    | some ((m, e), rest) =>
      let r1 := rest.dropWhile isSpaceTab
      match (if r1 = [] then some ((1 : Nat), ([] : List Char)) else cargs_size_suffix prefer_iec r1) with
      | none => none
      | some (mult, r2) =>
        let r3 := r2.dropWhile isSpaceTab
        if r3 ≠ [] then none
        else
          let bm : Int := m * (mult : Int)
          if bm < 0 ∨ scaledGtUInt64Max bm e then none
          else some (scaledRoundHalfUp bm e).toNat

/-- `cargs_read_size_si` (bare units at radix 1000). -/
def cargs_read_size_si (s : String) : Option Nat := cargs_read_size s false

/-- `cargs_read_size_iec` (bare units at radix 1024). -/
def cargs_read_size_iec (s : String) : Option Nat := cargs_read_size s true

/-! ### The per-level token scan (`cargs_parse_opts_level`, scan loop) -/

/-- Result of the scan loop of one level: an error code, the "intercepted"
outcome of a builtin (C `CARGS_DONE`), or success with the final group
counters and the unconsumed tokens. -/
inductive ScanRes where
  | err (code : Int)
  | done
  | ok (counts : List Nat) (rest : List String)
deriving DecidableEq, Repr

structure ScanOut where
  events : List CEvent
  res : ScanRes
deriving DecidableEq, Repr

def ScanOut.withEvents (es : List CEvent) (s : ScanOut) : ScanOut :=
  ⟨es ++ s.events, s.res⟩

/-- Splitting a long-option body on the first `=` (`strchr(name, '=')`). -/
def splitEq (s : String) : String × Option String :=
  let pre := s.data.takeWhile (fun c => c != '=')
  if pre.length = s.data.length then (s, none)
  else (String.mk pre, some (String.mk (s.data.drop (pre.length + 1))))

/-- The callback step shared by all option matches during the scan:
`rc = o->cb ? o->cb(val, user) : CARGS_OK; if (rc < 0) return rc;` followed
by the group-counter bump.  `Sum.inr` aborts the scan with the callback's
negative return code. -/
def cbStep (ctx : Ctx) (o : cargs_opt) (val : Option String) (counts : List Nat) :
    (List CEvent × List Nat) ⊕ (List CEvent × Int) :=
  let evs := if o.cb then [CEvent.call o val] else []
  let rc : Int := if o.cb then ctx.cbRet o val else 0
  if rc < 0 then Sum.inr (evs, rc)
  else Sum.inl (evs, bumpGroup counts o.group)

/-- One iteration of the scan loop, factored as a non-recursive step function:
`halt` ends the level scan with a final result; `step` emits the events of one
option match and continues with updated counters, cluster remainder and
tokens. -/
inductive StepRes where
  | halt (out : ScanOut)
  | step (evs : List CEvent) (counts : List Nat) (pending : List Char) (args : List String)
deriving DecidableEq, Repr

/-- The long-option branch of the scan loop (token `--name` or `--name=val`,
already split into `name`/`val0` by `splitEq`): oversized `=`-names are
rejected, builtins are recognized first, then the option is looked up and its
value resolved according to its argument kind. -/
def longOptStep (ctx : Ctx) (opts : List cargs_opt) (allowV allowA : Bool)
    (counts : List Nat) (name : String) (val0 : Option String)
    (rest : List String) : StepRes :=
  if val0.isSome ∧ 96 ≤ name.length then .halt ⟨[], ScanRes.err CARGS_ERR_BAD_FORMAT⟩
  else if autoHelp ctx.envc ∧ name = "help" then
    .halt ⟨[CEvent.printed "help"], ScanRes.done⟩
  else if allowV ∧ autoVersionOk ctx.envc ∧ name = "version" then
    .halt ⟨[CEvent.printed "version"], ScanRes.done⟩
  else if allowA ∧ autoAuthorOk ctx.envc ∧ name = "author" then
    .halt ⟨[CEvent.printed "author"], ScanRes.done⟩
  else
    match cargs_find_long opts name with
    | none => .halt ⟨[], ScanRes.err CARGS_ERR_UNKNOWN⟩
    | some o =>
      match o.arg, val0 with
      | CArgKind.kRequired, some v =>
        match cbStep ctx o (some v) counts with
        | Sum.inr (evs, rc) => .halt ⟨evs, ScanRes.err rc⟩
        | Sum.inl (evs, counts2) => .step evs counts2 [] rest
      | CArgKind.kRequired, none =>
        match rest with
        | a :: rest2 =>
          match cbStep ctx o (some a) counts with
          | Sum.inr (evs, rc) => .halt ⟨evs, ScanRes.err rc⟩
          | Sum.inl (evs, counts2) => .step evs counts2 [] rest2
        | [] => .halt ⟨[], ScanRes.err CARGS_ERR_MISSING_VAL⟩
      | CArgKind.kOptional, some v =>
        match cbStep ctx o (some v) counts with
        | Sum.inr (evs, rc) => .halt ⟨evs, ScanRes.err rc⟩
        | Sum.inl (evs, counts2) => .step evs counts2 [] rest
      | CArgKind.kOptional, none =>
        match rest with
        | a :: rest2 =>
          if takeNextAsOptValue a then
            match cbStep ctx o (some a) counts with
            | Sum.inr (evs, rc) => .halt ⟨evs, ScanRes.err rc⟩
            | Sum.inl (evs, counts2) => .step evs counts2 [] rest2
          else
            match cbStep ctx o none counts with
            | Sum.inr (evs, rc) => .halt ⟨evs, ScanRes.err rc⟩
            | Sum.inl (evs, counts2) => .step evs counts2 [] (a :: rest2)
        | [] =>
          match cbStep ctx o none counts with
          | Sum.inr (evs, rc) => .halt ⟨evs, ScanRes.err rc⟩
          | Sum.inl (evs, counts2) => .step evs counts2 [] []
      | CArgKind.kNone, some _ => .halt ⟨[], ScanRes.err CARGS_ERR_BAD_FORMAT⟩
      | CArgKind.kNone, none =>
        match cbStep ctx o none counts with
        | Sum.inr (evs, rc) => .halt ⟨evs, ScanRes.err rc⟩
        | Sum.inl (evs, counts2) => .step evs counts2 [] rest

/-- A long-option step never leaves a pending cluster, and continues either
with the tokens after the flag or with one further (value) token consumed. -/
theorem longOptStep_shape {ctx : Ctx} {opts : List cargs_opt} {allowV allowA : Bool}
    {counts : List Nat} {name : String} {val0 : Option String} {rest : List String}
    {evs : List CEvent} {counts2 : List Nat} {pending2 : List Char} {args2 : List String}
    (h : longOptStep ctx opts allowV allowA counts name val0 rest =
      StepRes.step evs counts2 pending2 args2) :
    pending2 = [] ∧ (args2 = rest ∨ ∃ b, rest = b :: args2) := by
  unfold longOptStep at h
  repeat' split at h
  all_goals try cases h
  all_goals simp

def scanStep (ctx : Ctx) (opts : List cargs_opt) (allowV allowA : Bool)
    (counts : List Nat) (pending : List Char) (args : List String) : StepRes :=
  match pending with
  | c :: p =>
    if autoHelp ctx.envc ∧ c = 'h' then .halt ⟨[CEvent.printed "help"], ScanRes.done⟩
    else if allowV ∧ autoVersionOk ctx.envc ∧ c = 'v' then
      .halt ⟨[CEvent.printed "version"], ScanRes.done⟩
    else
      match cargs_find_short opts c with
      | none => .halt ⟨[], ScanRes.err CARGS_ERR_UNKNOWN⟩
      | some o =>
        match o.arg with
        | CArgKind.kRequired =>
          if p = [] then
            match args with
            | a :: args2 =>
              match cbStep ctx o (some a) counts with
              | Sum.inr (evs, rc) => .halt ⟨evs, ScanRes.err rc⟩
              | Sum.inl (evs, counts2) => .step evs counts2 [] args2
            | [] => .halt ⟨[], ScanRes.err CARGS_ERR_MISSING_VAL⟩
          else
            match cbStep ctx o (some (String.mk p)) counts with
            | Sum.inr (evs, rc) => .halt ⟨evs, ScanRes.err rc⟩
            | Sum.inl (evs, counts2) => .step evs counts2 [] args
        | CArgKind.kOptional =>
          if p = [] then
            match args with
            | a :: args2 =>
              if takeNextAsOptValue a then
                match cbStep ctx o (some a) counts with
                | Sum.inr (evs, rc) => .halt ⟨evs, ScanRes.err rc⟩
                | Sum.inl (evs, counts2) => .step evs counts2 [] args2
              else
                match cbStep ctx o none counts with
                | Sum.inr (evs, rc) => .halt ⟨evs, ScanRes.err rc⟩
                | Sum.inl (evs, counts2) => .step evs counts2 [] (a :: args2)
            | [] =>
              match cbStep ctx o none counts with
              | Sum.inr (evs, rc) => .halt ⟨evs, ScanRes.err rc⟩
              | Sum.inl (evs, counts2) => .step evs counts2 [] []
          else
            match cbStep ctx o (some (String.mk p)) counts with
            | Sum.inr (evs, rc) => .halt ⟨evs, ScanRes.err rc⟩
            | Sum.inl (evs, counts2) => .step evs counts2 [] args
        | CArgKind.kNone =>
          match cbStep ctx o none counts with
          | Sum.inr (evs, rc) => .halt ⟨evs, ScanRes.err rc⟩
          | Sum.inl (evs, counts2) => .step evs counts2 p args
  | [] =>
    match args with
    | [] => .halt ⟨[], ScanRes.ok counts []⟩
    | arg :: rest =>
      if arg.data.head? ≠ some '-' then .halt ⟨[], ScanRes.ok counts (arg :: rest)⟩
      else if arg = "--" then .halt ⟨[], ScanRes.ok counts rest⟩
      else if arg.data.get? 1 = some '-' then
        longOptStep ctx opts allowV allowA counts
          (splitEq (String.mk (arg.data.drop 2))).1
          (splitEq (String.mk (arg.data.drop 2))).2 rest
      else .step [] counts arg.data.tail rest

/-- Token weight used for the scan fuel: every loop iteration either consumes
a token or a cluster character. -/
def tokensWeight (args : List String) : Nat :=
  args.foldr (fun a n => a.data.length + 1 + n) 0

theorem tokensWeight_cons (a : String) (l : List String) :
    tokensWeight (a :: l) = a.data.length + 1 + tokensWeight l := rfl

/-- Fuel that provably suffices to drive the scan loop to completion. -/
def scanFuel (pending : List Char) (args : List String) : Nat :=
  pending.length + tokensWeight args + 1

/-- A scan step continues on a suffix of the unconsumed tokens. -/
theorem scanStep_suffix {ctx : Ctx} {opts : List cargs_opt} {allowV allowA : Bool}
    {counts : List Nat} {pending : List Char} {args : List String}
    {evs : List CEvent} {counts2 : List Nat} {pending2 : List Char} {args2 : List String}
    (h : scanStep ctx opts allowV allowA counts pending args =
      StepRes.step evs counts2 pending2 args2) :
    args2 <:+ args := by
  unfold scanStep at h
  repeat' split at h
  all_goals try cases h
  all_goals try (rcases longOptStep_shape h with ⟨hp, rfl | ⟨b, rfl⟩⟩)
  all_goals first
  | exact List.suffix_refl _
  | exact List.suffix_cons _ _
  | exact (List.suffix_cons _ _).trans (List.suffix_cons _ _)

/-- Every scan step strictly decreases the fuel measure. -/
theorem scanStep_fuel {ctx : Ctx} {opts : List cargs_opt} {allowV allowA : Bool}
    {counts : List Nat} {pending : List Char} {args : List String}
    {evs : List CEvent} {counts2 : List Nat} {pending2 : List Char} {args2 : List String}
    (h : scanStep ctx opts allowV allowA counts pending args =
      StepRes.step evs counts2 pending2 args2) :
    scanFuel pending2 args2 < scanFuel pending args := by
  unfold scanStep at h
  repeat' split at h
  all_goals try cases h
  all_goals try (rcases longOptStep_shape h with ⟨rfl, rfl | ⟨b, rfl⟩⟩)
  all_goals simp only [scanFuel, tokensWeight_cons, List.length_cons, List.length_nil,
    List.length_tail]
  all_goals omega

/-- The scan loop as structural recursion on fuel (kernel-computable).  The
fuel-exhausted branch is unreachable for the fuel `scanTokens` supplies. -/
def scanGo (fuel : Nat) (ctx : Ctx) (opts : List cargs_opt) (allowV allowA : Bool)
    (counts : List Nat) (pending : List Char) (args : List String) : ScanOut :=
  match fuel with
  | 0 => ⟨[], ScanRes.err CARGS_ERR_BAD_FORMAT⟩
  | fuel + 1 =>
    match scanStep ctx opts allowV allowA counts pending args with
    | .halt out => out
    | .step evs counts2 pending2 args2 =>
      (scanGo fuel ctx opts allowV allowA counts2 pending2 args2).withEvents evs

/-- The result of `scanGo` does not depend on the fuel, as long as it
suffices. -/
theorem scanGo_congr {ctx : Ctx} {opts : List cargs_opt} {allowV allowA : Bool} :
    ∀ (f1 f2 : Nat) (counts : List Nat) (pending : List Char) (args : List String),
      scanFuel pending args ≤ f1 → scanFuel pending args ≤ f2 →
      scanGo f1 ctx opts allowV allowA counts pending args =
        scanGo f2 ctx opts allowV allowA counts pending args := by
  intro f1
  induction f1 with
  | zero =>
    intro f2 counts pending args h1 h2
    exact absurd h1 (by simp [scanFuel])
  | succ f1 ih =>
    intro f2 counts pending args h1 h2
    match f2, h2 with
    | f2 + 1, h2 =>
      rw [scanGo, scanGo]
      rcases hs : scanStep ctx opts allowV allowA counts pending args with out | ⟨evs, c2, p2, a2⟩
      · rfl
      · have hf := scanStep_fuel hs
        dsimp only
        rw [ih f2 c2 p2 a2 (by omega) (by omega)]

/-- The token-scan loop of `cargs_parse_opts_level` (source lines 758-902):
iterate `scanStep`, accumulating events.  `pending` is the unprocessed
remainder of a short-option cluster (the C pointer `p` inside the current
token); `args` are the unconsumed tokens. -/
def scanTokens (ctx : Ctx) (opts : List cargs_opt) (allowV allowA : Bool)
    (counts : List Nat) (pending : List Char) (args : List String) : ScanOut :=
  scanGo (scanFuel pending args) ctx opts allowV allowA counts pending args

/-- Unfolding the scan loop when the step halts. -/
theorem scanTokens_halt {ctx : Ctx} {opts : List cargs_opt} {allowV allowA : Bool}
    {counts : List Nat} {pending : List Char} {args : List String} {out : ScanOut}
    (h : scanStep ctx opts allowV allowA counts pending args = StepRes.halt out) :
    scanTokens ctx opts allowV allowA counts pending args = out := by
  unfold scanTokens
  rw [show scanFuel pending args = (scanFuel pending args - 1) + 1 from by simp [scanFuel]]
  rw [scanGo, h]

/-- Unfolding the scan loop across one option-match step. -/
theorem scanTokens_step {ctx : Ctx} {opts : List cargs_opt} {allowV allowA : Bool}
    {counts : List Nat} {pending : List Char} {args : List String}
    {evs : List CEvent} {counts2 : List Nat} {pending2 : List Char} {args2 : List String}
    (h : scanStep ctx opts allowV allowA counts pending args =
      StepRes.step evs counts2 pending2 args2) :
    scanTokens ctx opts allowV allowA counts pending args =
      (scanTokens ctx opts allowV allowA counts2 pending2 args2).withEvents evs := by
  have hf := scanStep_fuel h
  unfold scanTokens
  rw [show scanFuel pending args = (scanFuel pending args - 1) + 1 from by simp [scanFuel]]
  rw [scanGo, h]
  dsimp only
  rw [scanGo_congr (scanFuel pending args - 1) (scanFuel pending2 args2) counts2 pending2
    args2 (by omega) (by omega)]

/-- A halting scan step that reports success leaves a suffix of the tokens. -/
theorem scanStep_halt_ok_length {ctx : Ctx} {opts : List cargs_opt} {allowV allowA : Bool}
    {counts : List Nat} {pending : List Char} {args : List String}
    {es : List CEvent} {cnts : List Nat} {rest : List String}
    (h : scanStep ctx opts allowV allowA counts pending args =
      StepRes.halt ⟨es, ScanRes.ok cnts rest⟩) :
    rest.length ≤ args.length := by
  have hlong : ∀ (name : String) (val0 : Option String) (rest2 : List String),
      longOptStep ctx opts allowV allowA counts name val0 rest2 =
        StepRes.halt ⟨es, ScanRes.ok cnts rest⟩ → False := by
    intro name val0 rest2 h2
    unfold longOptStep at h2
    repeat' split at h2
    all_goals simp at h2
  unfold scanStep at h
  repeat' split at h
  all_goals try (exact (hlong _ _ _ h).elim)
  all_goals simp at h
  all_goals try (obtain ⟨h1, h2, h3⟩ := h; subst h3)
  all_goals simp only [List.length_cons, List.length_nil, List.length_tail]
  all_goals omega

/-- The scan only ever hands back a suffix of its tokens: the first unconsumed
index never exceeds `argc`. -/
theorem scanTokens_ok_length {ctx : Ctx} {opts : List cargs_opt} {allowV allowA : Bool}
    {counts : List Nat} {pending : List Char} {args : List String}
    {cnts : List Nat} {rest : List String}
    (h : (scanTokens ctx opts allowV allowA counts pending args).res = ScanRes.ok cnts rest) :
    rest.length ≤ args.length := by
  suffices hgo : ∀ (fuel : Nat) (counts : List Nat) (pending : List Char) (args : List String)
      (cnts : List Nat) (rest : List String),
      (scanGo fuel ctx opts allowV allowA counts pending args).res = ScanRes.ok cnts rest →
      rest.length ≤ args.length by
    exact hgo _ _ _ _ _ _ h
  intro fuel
  induction fuel with
  | zero =>
    intro counts pending args cnts rest h
    simp [scanGo] at h
  | succ fuel ih =>
    intro counts pending args cnts rest h
    rw [scanGo] at h
    rcases hs : scanStep ctx opts allowV allowA counts pending args with out | ⟨evs, c2, p2, a2⟩
    · rw [hs] at h
      rcases out with ⟨es, res⟩
      cases res with
      | ok c r =>
        simp at h
        rcases h with ⟨rfl, rfl⟩
        exact scanStep_halt_ok_length hs
      | err c => simp at h
      | done => simp at h
    · rw [hs] at h
      simp only [ScanOut.withEvents] at h
      have h2 := ih _ _ _ _ _ h
      have h3 := (scanStep_suffix hs).length_le
      omega

/-! ### The per-level parse (`cargs_parse_opts_level`) -/

/-- The level-parse result as seen by the dispatcher: the C function returns
an `int` (negative error, `CARGS_DONE`, or `CARGS_OK`) plus the out-parameter
`*idx`; `ok rest` packages `CARGS_OK` with the unconsumed suffix. -/
inductive LevelRes where
  | err (code : Int)
  | done
  | ok (rest : List String)
deriving DecidableEq, Repr

structure LevelOut where
  events : List CEvent
  res : LevelRes
deriving DecidableEq, Repr

/-- The `int` return value of `cargs_parse_opts_level` for each outcome. -/
def cargs_level_code : LevelRes → Int
  | .err c => c
  | .done => CARGS_DONE
  | .ok _ => CARGS_OK

/-- `cargs_parse_opts_level`: group masks, env/default overlay, token scan,
then group enforcement. -/
def cargs_parse_opts_level (ctx : Ctx) (cmd : cargs_cmd) (args : List String)
    (allowV allowA : Bool) : LevelOut :=
  let ov := cargs_apply_env_defaults_level ctx cmd.opts countsInit
  let s := scanTokens ctx cmd.opts allowV allowA ov.2 [] args
  match s.res with
  | ScanRes.err c => ⟨ov.1 ++ s.events, LevelRes.err c⟩
  | ScanRes.done => ⟨ov.1 ++ s.events, LevelRes.done⟩
  | ScanRes.ok counts rest =>
    match cargs_enforce_groups (cargs_group_masks cmd.opts) counts with
    | some c => ⟨ov.1 ++ s.events, LevelRes.err c⟩
    | none => ⟨ov.1 ++ s.events, LevelRes.ok rest⟩

/-- A successful level parse leaves a suffix of its tokens unconsumed. -/
theorem cargs_parse_opts_level_ok_length {ctx : Ctx} {cmd : cargs_cmd}
    {args : List String} {allowV allowA : Bool} {rest : List String}
    (h : (cargs_parse_opts_level ctx cmd args allowV allowA).res = LevelRes.ok rest) :
    rest.length ≤ args.length := by
  unfold cargs_parse_opts_level at h
  dsimp only at h
  split at h
  · simp at h
  · simp at h
  case _ counts rest2 hs =>
    split at h
    · simp at h
    · simp at h
      subst h
      exact scanTokens_ok_length hs

/-! ### The dispatcher (`cargs_dispatch`) -/

/-- `cargs_find_sub`: look a token up among a node's children, matching the
child's name or any of its aliases. -/
def cargs_find_sub (cmd : cargs_cmd) (nm : String) : Option cargs_cmd :=
  cmd.subs.find? (fun c => c.name == some nm || c.aliases.any (fun a => a == nm))

/-- Observable outcome of a dispatch call: the trace of callback/builtin/
handler events, and the returned status. -/
structure DispatchOut where
  events : List CEvent
  status : Int
deriving DecidableEq, Repr

/-- Deepest-command stage of the dispatcher (source lines 963-972): validate
the positional schema against the leftover count, then run the handler or, if
there is none, print help and succeed. -/
def dispatchFinish (ctx : Ctx) (cmd : cargs_cmd) (events : List CEvent)
    (rest : List String) : DispatchOut :=
  let rcPos := cargs_validate_positional cmd.pos (rest.length : Int)
  if rcPos < 0 then ⟨events, rcPos⟩
  else
    match cmd.run with
    | some rid => ⟨events ++ [CEvent.run rid rest], ctx.runRet rid rest⟩
    | none => ⟨events ++ [CEvent.printed "help"], CARGS_OK⟩

/-- One iteration of the dispatch loop: parse the current level, then either
halt (interception, error, or leaf reached) or descend into a matching
subcommand.  Version/author builtins are only allowed at depth 0; the matched
path is capped at 16 entries, so `depth` stops increasing there. -/
inductive DispStep where
  | halt (out : DispatchOut)
  | descend (evs : List CEvent) (sub : cargs_cmd) (depth2 : Nat) (args2 : List String)

def dispatchStep (ctx : Ctx) (cmd : cargs_cmd) (depth : Nat) (args : List String) : DispStep :=
  let L := cargs_parse_opts_level ctx cmd args (depth == 0) (depth == 0)
  match L.res with
  | LevelRes.done => .halt ⟨L.events, CARGS_OK⟩
  | LevelRes.err c => .halt ⟨L.events, c⟩
  | LevelRes.ok rest =>
    match rest with
    | [] => .halt (dispatchFinish ctx cmd L.events rest)
    | a :: rest2 =>
      if a.data.head? = some '-' then .halt (dispatchFinish ctx cmd L.events rest)
      else
        match cargs_find_sub cmd a with
        | none => .halt (dispatchFinish ctx cmd L.events rest)
        | some sub =>
          .descend L.events sub (if depth < 16 then depth + 1 else depth) rest2

/-- Descending consumes the subcommand token, so strictly fewer tokens remain. -/
theorem dispatchStep_decr {ctx : Ctx} {cmd : cargs_cmd} {depth : Nat} {args : List String}
    {evs : List CEvent} {sub : cargs_cmd} {depth2 : Nat} {args2 : List String}
    (h : dispatchStep ctx cmd depth args = DispStep.descend evs sub depth2 args2) :
    args2.length < args.length := by
  unfold dispatchStep at h
  dsimp only at h
  split at h
  · simp at h
  · simp at h
  case _ rest hres =>
    have hlen := cargs_parse_opts_level_ok_length hres
    repeat' split at h
    all_goals cases h
    all_goals simp only [List.length_cons] at hlen
    all_goals omega

/-- The dispatch loop (`while (1)` in `cargs_dispatch`) as structural
recursion on fuel; each descent consumes at least the subcommand token, so
`args.length + 1` fuel always suffices. -/
def dispatchGo (fuel : Nat) (ctx : Ctx) (cmd : cargs_cmd) (depth : Nat)
    (args : List String) : DispatchOut :=
  match fuel with
  | 0 => ⟨[], CARGS_ERR_BAD_FORMAT⟩
  | fuel + 1 =>
    match dispatchStep ctx cmd depth args with
    | .halt out => out
    | .descend evs sub depth2 args2 =>
      ⟨evs ++ (dispatchGo fuel ctx sub depth2 args2).events,
       (dispatchGo fuel ctx sub depth2 args2).status⟩

/-- The result of `dispatchGo` does not depend on the fuel, as long as it
exceeds the number of remaining tokens. -/
theorem dispatchGo_congr {ctx : Ctx} :
    ∀ (f1 f2 : Nat) (cmd : cargs_cmd) (depth : Nat) (args : List String),
      args.length < f1 → args.length < f2 →
      dispatchGo f1 ctx cmd depth args = dispatchGo f2 ctx cmd depth args := by
  intro f1
  induction f1 with
  | zero => intro f2 cmd depth args h1 h2; omega
  | succ f1 ih =>
    intro f2 cmd depth args h1 h2
    match f2, h2 with
    | f2 + 1, h2 =>
      rw [dispatchGo, dispatchGo]
      rcases hs : dispatchStep ctx cmd depth args with out | ⟨evs, sub, d2, a2⟩
      · rfl
      · have hd := dispatchStep_decr hs
        dsimp only
        rw [ih f2 sub d2 a2 (by omega) (by omega)]

/-- The dispatch loop with its canonical fuel. -/
def cargs_dispatch_loop (ctx : Ctx) (cmd : cargs_cmd) (depth : Nat)
    (args : List String) : DispatchOut :=
  dispatchGo (args.length + 1) ctx cmd depth args

/-- Unfolding the dispatch loop when the step halts. -/
theorem cargs_dispatch_loop_halt {ctx : Ctx} {cmd : cargs_cmd} {depth : Nat}
    {args : List String} {out : DispatchOut}
    (h : dispatchStep ctx cmd depth args = DispStep.halt out) :
    cargs_dispatch_loop ctx cmd depth args = out := by
  unfold cargs_dispatch_loop
  rw [dispatchGo, h]

/-- Unfolding the dispatch loop across a descent into a subcommand. -/
theorem cargs_dispatch_loop_descend {ctx : Ctx} {cmd : cargs_cmd} {depth : Nat}
    {args : List String} {evs : List CEvent} {sub : cargs_cmd} {depth2 : Nat}
    {args2 : List String}
    (h : dispatchStep ctx cmd depth args = DispStep.descend evs sub depth2 args2) :
    cargs_dispatch_loop ctx cmd depth args =
      ⟨evs ++ (cargs_dispatch_loop ctx sub depth2 args2).events,
       (cargs_dispatch_loop ctx sub depth2 args2).status⟩ := by
  have hd := dispatchStep_decr h
  unfold cargs_dispatch_loop
  rw [dispatchGo, h]
  dsimp only
  rw [dispatchGo_congr args.length (args2.length + 1) sub depth2 args2 (by omega) (by omega)]

/-- `cargs_dispatch`: the NULL/argc guard, then the level loop starting at the
root with the program name (`argv[0]`) skipped.  `argc` and `argv` are
modelled separately so the guard can be stated exactly as in the source; the
loop consumes `argv[1..argc-1]`. -/
def cargs_dispatch (ctx : Ctx) (root : Option cargs_cmd) (argc : Int)
    (argv : Option (List String)) : DispatchOut :=
  match root, argv with
  | some r, some av =>
    if argc ≤ 0 then ⟨[], CARGS_ERR_BAD_FORMAT⟩
    else cargs_dispatch_loop ctx r 0 ((av.take argc.toNat).drop 1)
  | _, _ => ⟨[], CARGS_ERR_BAD_FORMAT⟩

/-! ### Generic helper lemmas -/

theorem countsInit_getD (i : Nat) : countsInit.getD i 0 = 0 := by
  unfold countsInit
  rcases Nat.lt_or_ge i 33 with h | h
  · rw [List.getD_eq_getElem?_getD, List.getElem?_replicate, if_pos h]; rfl
  · rw [List.getD_eq_getElem?_getD, List.getElem?_replicate, if_neg (by omega)]; rfl

theorem countsInit_length : countsInit.length = 33 := rfl

theorem bumpGroup_getD_self (counts : List Nat) (g : Nat) (h1 : 0 < g) (h2 : g < 33)
    (hlen : g < counts.length) :
    (bumpGroup counts g).getD g 0 = (counts.getD g 0 + 1) % 256 := by
  unfold bumpGroup
  rw [if_pos ⟨h1, h2⟩, List.getD_eq_getElem?_getD, List.getElem?_set_self hlen]
  rfl

/-- `List.findSome?` over a function that only ever produces one value. -/
theorem findSome?_const {α β : Type} (l : List α) (f : α → Option β) (c : β)
    (hall : ∀ a ∈ l, f a = none ∨ f a = some c) (hex : ∃ a ∈ l, f a = some c) :
    l.findSome? f = some c := by
  induction l with
  | nil => rcases hex with ⟨a, ha, _⟩; cases ha
  | cons a l ih =>
    rw [List.findSome?_cons]
    rcases hall a (by simp) with ha | ha
    · rw [ha]
      rcases hex with ⟨b, hb, hbc⟩
      rcases List.mem_cons.1 hb with rfl | hb
      · rw [ha] at hbc; cases hbc
      · exact ih (fun x hx => hall x (by simp [hx])) ⟨b, hb, hbc⟩
    · rw [ha]

/-- Appending no events is the identity. -/
theorem withEvents_nil (s : ScanOut) : s.withEvents [] = s := by
  simp [ScanOut.withEvents]

/-- The scan halts immediately at the end of the tokens. -/
theorem scanStep_nil (ctx : Ctx) (opts : List cargs_opt) (aV aA : Bool)
    (counts : List Nat) :
    scanStep ctx opts aV aA counts [] [] = StepRes.halt ⟨[], ScanRes.ok counts []⟩ := rfl

/-! ## Claim C9 — dispatch guard on NULL root / NULL argv / non-positive argc -/

/-- C9: `cargs_dispatch` called with a NULL `root`, a NULL `argv`, or a
non-positive `argc` returns `CARGS_ERR_BAD_FORMAT` immediately, with an empty
event trace: no option callback and no command handler is invoked. -/
theorem C9_dispatch_guard (ctx : Ctx) (root : Option cargs_cmd) (argc : Int)
    (argv : Option (List String))
    (h : root = none ∨ argv = none ∨ argc ≤ 0) :
    cargs_dispatch ctx root argc argv = ⟨[], CARGS_ERR_BAD_FORMAT⟩ := by
  unfold cargs_dispatch
  rcases root with _ | r
  · rfl
  rcases argv with _ | av
  · rfl
  rcases h with h | h | h
  · cases h
  · cases h
  · simp [h]

theorem C9_dispatch_guard_witness :
    cargs_dispatch ⟨none, fun _ => none, fun _ _ => 0, fun _ _ => 0⟩
      (some (cargs_cmd.mk none [] [] [] [] none)) (-3) (some ["t"]) =
      ⟨[], CARGS_ERR_BAD_FORMAT⟩ :=
  C9_dispatch_guard _ _ (-3) _ (Or.inr (Or.inr (by decide)))

/-! ## Claim C10 — empty positional schema always validates -/

/-- C10: a command whose positional schema is empty passes positional
validation for every leftover count; it can produce neither the
TooFew/Positional nor the TooMany failure. -/
theorem C10_empty_schema (argc : Int) :
    cargs_validate_positional [] argc = CARGS_OK ∧
    cargs_validate_positional [] argc ≠ CARGS_ERR_POSITIONAL ∧
    cargs_validate_positional [] argc ≠ CARGS_ERR_TOO_MANY := by
  refine ⟨rfl, ?_, ?_⟩ <;> (intro h; rw [show cargs_validate_positional [] argc = CARGS_OK from rfl] at h; exact absurd h (by decide))

/-! ## Claim C1 — status returned when a builtin intercepts

The level parser's "intercepted" outcome is the positive sentinel
`CARGS_DONE = 1`, but `cargs_dispatch` maps it to `CARGS_OK = 0`
(`if (rc == CARGS_DONE) return CARGS_OK;`), so the dispatch status on a
builtin interception is zero — indistinguishable from ordinary success. -/

/-- A configuration with all builtins enabled, ignoring callbacks. -/
def envFull : cargs_env := ⟨true, true, true, some "v1", some "a"⟩

def ctxFull : Ctx := ⟨some envFull, fun _ => none, fun _ _ => 0, fun i _ => (i : Int)⟩

/-- A trivial root command with a handler (id 0) and no options. -/
def rootPlain : cargs_cmd := cargs_cmd.mk none [] [] [] [] (some 0)

/-- C1 (counterexample): on `--help` the per-level parse returns the
intercepted outcome, yet `cargs_dispatch` returns `CARGS_OK = 0` — not a
positive sentinel distinct from the success status. -/
theorem C1_counterexample :
    (cargs_parse_opts_level ctxFull rootPlain ["--help"] true true).res = LevelRes.done ∧
    cargs_dispatch ctxFull (some rootPlain) 2 (some ["t", "--help"]) =
      ⟨[CEvent.printed "help"], CARGS_OK⟩ ∧
    ¬ 0 < (cargs_dispatch ctxFull (some rootPlain) 2 (some ["t", "--help"])).status := by
  refine ⟨by decide, by decide, ?_⟩
  rw [show cargs_dispatch ctxFull (some rootPlain) 2 (some ["t", "--help"]) =
    ⟨[CEvent.printed "help"], CARGS_OK⟩ from by decide]
  decide

/-- C1 (amended): whenever the per-level parse of the level the dispatcher is
at returns the intercepted outcome — whose C encoding `cargs_level_code` is
the positive sentinel `CARGS_DONE`, distinct from `CARGS_OK` — the dispatch
loop returns `CARGS_OK = 0`, the same status as ordinary success. -/
theorem C1_intercepted_status (ctx : Ctx) (cmd : cargs_cmd) (depth : Nat)
    (args : List String)
    (h : (cargs_parse_opts_level ctx cmd args (depth == 0) (depth == 0)).res =
      LevelRes.done) :
    (cargs_dispatch_loop ctx cmd depth args).status = CARGS_OK ∧
    cargs_level_code LevelRes.done = CARGS_DONE ∧ CARGS_OK < CARGS_DONE := by
  refine ⟨?_, rfl, by decide⟩
  have hs : dispatchStep ctx cmd depth args =
      DispStep.halt ⟨(cargs_parse_opts_level ctx cmd args (depth == 0) (depth == 0)).events,
        CARGS_OK⟩ := by
    unfold dispatchStep
    dsimp only
    rw [h]
  rw [cargs_dispatch_loop_halt hs]

theorem C1_intercepted_status_witness :
    (cargs_dispatch_loop ctxFull rootPlain 0 ["--help"]).status = CARGS_OK :=
  (C1_intercepted_status ctxFull rootPlain 0 ["--help"] (by decide)).1

/-! ## Claim C2 — tokens after `--`

Inside one level's scan, `--` ends option matching and everything after it is
left untouched.  But `cargs_parse_opts_level` does not tell the dispatcher
that the scan stopped because of `--`, and the dispatcher still compares the
first leftover token against subcommand names and aliases — so a token after
`--` that names a child still causes descent. -/

/-- A context with no `cargs_env` (all builtins off) whose handlers return
their own id. -/
def ctxPlain : Ctx := ⟨none, fun _ => none, fun _ _ => 0, fun i _ => (i : Int)⟩

def subPlain : cargs_cmd := cargs_cmd.mk (some "sub") [] [] [] [] (some 1)

def rootSub : cargs_cmd := cargs_cmd.mk none [] [subPlain] [] [] (some 0)

/-- C2 (counterexample): with a child named `sub`, the argv `t -- sub` runs
the CHILD's handler with no arguments — the token `sub` after `--` was
matched as a subcommand — instead of running the root handler with the
positional `["sub"]` as the claim requires. -/
theorem C2_counterexample :
    cargs_dispatch ctxPlain (some rootSub) 3 (some ["t", "--", "sub"]) =
      ⟨[CEvent.run 1 []], 1⟩ ∧
    cargs_dispatch ctxPlain (some rootSub) 3 (some ["t", "--", "sub"]) ≠
      ⟨[CEvent.run 0 ["sub"]], 0⟩ := by
  constructor <;> decide

/-- C2 (amended): (1) after a literal `--`, the level scan consumes only the
`--` itself and never matches any later token as an option of that level —
whatever the tokens are; (2) at a command with an empty schema and a handler,
when the token following `--` begins with `-` or does not name any child
subcommand, it and everything after it are passed verbatim as positionals to
the current command's handler.  (The exception — a token after `--` equal to
a child's name or alias still causes descent — is exhibited by the
counterexample.) -/
theorem C2_after_ddash :
    (∀ (ctx : Ctx) (opts : List cargs_opt) (aV aA : Bool) (counts : List Nat)
      (rest : List String),
      scanTokens ctx opts aV aA counts [] ("--" :: rest) =
        ⟨[], ScanRes.ok counts rest⟩) ∧
    (∀ (ctx : Ctx) (subs : List cargs_cmd) (rid : Nat) (depth : Nat) (w : String)
      (rest : List String),
      (w.data.head? = some '-' ∨
        cargs_find_sub (cargs_cmd.mk none [] subs [] [] (some rid)) w = none) →
      cargs_dispatch_loop ctx (cargs_cmd.mk none [] subs [] [] (some rid)) depth
        ("--" :: w :: rest) =
        ⟨[CEvent.run rid (w :: rest)], ctx.runRet rid (w :: rest)⟩) := by
  have hscan : ∀ (ctx : Ctx) (opts : List cargs_opt) (aV aA : Bool) (counts : List Nat)
      (rest : List String),
      scanTokens ctx opts aV aA counts [] ("--" :: rest) =
        ⟨[], ScanRes.ok counts rest⟩ := by
    intro ctx opts aV aA counts rest
    refine scanTokens_halt ?_
    unfold scanStep
    dsimp only
    rw [if_neg (by decide), if_pos rfl]
  refine ⟨hscan, ?_⟩
  intro ctx subs rid depth w rest hw
  have hp : cargs_parse_opts_level ctx (cargs_cmd.mk none [] subs [] [] (some rid))
      ("--" :: w :: rest) (depth == 0) (depth == 0) = ⟨[], LevelRes.ok (w :: rest)⟩ := by
    unfold cargs_parse_opts_level
    dsimp only [cargs_cmd.opts, cargs_apply_env_defaults_level]
    rw [hscan]
    dsimp only
    rw [show cargs_enforce_groups (cargs_group_masks []) countsInit = none from by decide]
    simp
  have hfin : dispatchFinish ctx (cargs_cmd.mk none [] subs [] [] (some rid)) []
      (w :: rest) = ⟨[CEvent.run rid (w :: rest)], ctx.runRet rid (w :: rest)⟩ := by
    unfold dispatchFinish
    rw [show cargs_validate_positional
      (cargs_cmd.mk none [] subs [] [] (some rid)).pos (((w :: rest).length : Nat) : Int) =
      CARGS_OK from rfl]
    rw [if_neg (by decide)]
    rfl
  have hs : dispatchStep ctx (cargs_cmd.mk none [] subs [] [] (some rid)) depth
      ("--" :: w :: rest) =
      DispStep.halt ⟨[CEvent.run rid (w :: rest)], ctx.runRet rid (w :: rest)⟩ := by
    unfold dispatchStep
    dsimp only
    rw [hp]
    dsimp only
    by_cases hw1 : w.data.head? = some '-'
    · rw [if_pos hw1, hfin]
    · rw [if_neg hw1]
      rcases hw with hw | hw
      · exact absurd hw hw1
      · rw [hw, hfin]
  rw [cargs_dispatch_loop_halt hs]

theorem C2_after_ddash_witness :
    cargs_dispatch_loop ctxFull (cargs_cmd.mk none [] [] [] [] (some 5)) 0
      ["--", "x", "-y"] = ⟨[CEvent.run 5 ["x", "-y"]], 5⟩ :=
  C2_after_ddash.2 ctxFull [] 5 0 "x" ["-y"] (Or.inr rfl)

/-! ### Symbolic facts about option tokens -/

theorem ddash_append_data (L : String) : ("--" ++ L).data = '-' :: '-' :: L.data := by
  rw [String.data_append]; rfl

theorem ddash_append_ne {L : String} (h : L ≠ "") : ("--" ++ L) ≠ "--" := by
  intro he
  apply h
  have hd := congrArg String.data he
  rw [String.data_append] at hd
  simp at hd
  cases L
  simp_all

theorem dash_short_data (x : Char) (tl : List Char) :
    ("-" ++ String.mk (x :: tl)).data = '-' :: x :: tl := by
  rw [String.data_append]; rfl

theorem dash_short_ne {x : Char} (tl : List Char) (hx : x ≠ '-') :
    ("-" ++ String.mk (x :: tl)) ≠ "--" := by
  intro he
  have hd := congrArg String.data he
  rw [String.data_append] at hd
  simp at hd
  exact hx hd.1

theorem data_ne_nil {v : String} (h : v ≠ "") : v.data ≠ [] := by
  intro he; apply h; cases v; simp_all

/-- `splitEq` on a name containing no `=` finds nothing to split. -/
theorem splitEq_no_eq {L : String} (h : ∀ c ∈ L.data, c ≠ '=') : splitEq L = (L, none) := by
  unfold splitEq
  rw [List.takeWhile_eq_self_iff.mpr (by intro a ha; simpa using h a ha)]
  rw [if_pos rfl]

theorem takeWhile_until_eq (cs v : List Char) (h : ∀ c ∈ cs, c ≠ '=') :
    (cs ++ '=' :: v).takeWhile (fun c => c != '=') = cs := by
  induction cs with
  | nil => simp [List.takeWhile]
  | cons c cs ih =>
    rw [List.cons_append, List.takeWhile_cons_of_pos]
    · rw [ih (fun a ha => h a (by simp [ha]))]
    · simp only [bne_iff_ne, ne_eq]
      exact h c (by simp)

/-- `splitEq` on `name=value` splits at the first `=` when the name itself
contains none. -/
theorem splitEq_eq {L v : String} (h : ∀ c ∈ L.data, c ≠ '=') :
    splitEq (String.mk (L.data ++ '=' :: v.data)) = (L, some v) := by
  unfold splitEq
  have htake := takeWhile_until_eq L.data v.data h
  have hdrop : (L.data ++ '=' :: v.data).drop (L.data.length + 1) = v.data := by
    rw [← List.drop_drop, List.drop_left]
    rfl
  simp only [htake, hdrop]
  rw [if_neg (by simp)]

theorem ddash_eqform_data (L v : String) :
    ("--" ++ L ++ "=" ++ v).data = '-' :: '-' :: (L.data ++ '=' :: v.data) := by
  simp [String.data_append]

/-- A `--name` token (no `=`) enters the long-option branch with the whole
body as the name and no attached value. -/
theorem scanStep_long (ctx : Ctx) (opts : List cargs_opt) (aV aA : Bool)
    (counts : List Nat) {L : String} (hL : L ≠ "") (hne : ∀ c ∈ L.data, c ≠ '=')
    (rest : List String) :
    scanStep ctx opts aV aA counts [] (("--" ++ L) :: rest) =
      longOptStep ctx opts aV aA counts L none rest := by
  unfold scanStep
  dsimp only
  rw [if_neg (by rw [ddash_append_data]; simp), if_neg (ddash_append_ne hL),
    if_pos (by rw [ddash_append_data]; rfl)]
  rw [show ("--" ++ L).data.drop 2 = L.data from by rw [ddash_append_data]; rfl]
  rw [show String.mk L.data = L from rfl, splitEq_no_eq hne]

/-- A `--name=value` token enters the long-option branch with the value
attached. -/
theorem scanStep_long_eqform (ctx : Ctx) (opts : List cargs_opt) (aV aA : Bool)
    (counts : List Nat) {L : String} (hne : ∀ c ∈ L.data, c ≠ '=')
    (v : String) (rest : List String) :
    scanStep ctx opts aV aA counts [] (("--" ++ L ++ "=" ++ v) :: rest) =
      longOptStep ctx opts aV aA counts L (some v) rest := by
  unfold scanStep
  dsimp only
  rw [if_neg (by rw [ddash_eqform_data]; simp),
    if_neg (by intro he; have := congrArg String.data he; rw [ddash_eqform_data] at this; simp at this),
    if_pos (by rw [ddash_eqform_data]; rfl)]
  rw [show ("--" ++ L ++ "=" ++ v).data.drop 2 = L.data ++ '=' :: v.data from by
    rw [ddash_eqform_data]; rfl]
  rw [splitEq_eq hne]

/-- Long required option, separated value: the next token is consumed as the
value even if it begins with `-`. -/
theorem longOptStep_required_sep (ctx : Ctx) (opts : List cargs_opt) (aV aA : Bool)
    (counts : List Nat) {L : String} {o : cargs_opt} (henv : ctx.envc = none)
    (hfind : cargs_find_long opts L = some o) (harg : o.arg = CArgKind.kRequired)
    (hcb : o.cb = true) (a : String) (rest2 : List String)
    (hrc : 0 ≤ ctx.cbRet o (some a)) :
    longOptStep ctx opts aV aA counts L none (a :: rest2) =
      StepRes.step [CEvent.call o (some a)] (bumpGroup counts o.group) [] rest2 := by
  unfold longOptStep
  rw [if_neg (by simp), if_neg (by simp [autoHelp, henv]),
    if_neg (by simp [autoVersionOk, henv]), if_neg (by simp [autoAuthorOk, henv]), hfind]
  simp only [harg]
  unfold cbStep
  rw [hcb]
  dsimp only
  rw [if_pos rfl, if_neg (by omega)]
  simp

/-- Long required option with an attached `=value`. -/
theorem longOptStep_required_eq (ctx : Ctx) (opts : List cargs_opt) (aV aA : Bool)
    (counts : List Nat) {L : String} {o : cargs_opt} (henv : ctx.envc = none)
    (hlen : L.length < 96)
    (hfind : cargs_find_long opts L = some o) (harg : o.arg = CArgKind.kRequired)
    (hcb : o.cb = true) (v : String) (rest : List String)
    (hrc : 0 ≤ ctx.cbRet o (some v)) :
    longOptStep ctx opts aV aA counts L (some v) rest =
      StepRes.step [CEvent.call o (some v)] (bumpGroup counts o.group) [] rest := by
  unfold longOptStep
  rw [if_neg (by simp; omega), if_neg (by simp [autoHelp, henv]),
    if_neg (by simp [autoVersionOk, henv]), if_neg (by simp [autoAuthorOk, henv]), hfind]
  simp only [harg]
  unfold cbStep
  rw [hcb]
  dsimp only
  rw [if_pos rfl, if_neg (by omega)]
  simp

/-- Long optional option without attached value, next token present: the
lookahead heuristic decides whether it is consumed. -/
theorem longOptStep_optional_next (ctx : Ctx) (opts : List cargs_opt) (aV aA : Bool)
    (counts : List Nat) {L : String} {o : cargs_opt} (henv : ctx.envc = none)
    (hfind : cargs_find_long opts L = some o) (harg : o.arg = CArgKind.kOptional)
    (hcb : o.cb = true) (nxt : String) (rest2 : List String)
    (hrc : ∀ w, 0 ≤ ctx.cbRet o w) :
    longOptStep ctx opts aV aA counts L none (nxt :: rest2) =
      (if takeNextAsOptValue nxt then
        StepRes.step [CEvent.call o (some nxt)] (bumpGroup counts o.group) [] rest2
      else
        StepRes.step [CEvent.call o none] (bumpGroup counts o.group) [] (nxt :: rest2)) := by
  unfold longOptStep
  rw [if_neg (by simp), if_neg (by simp [autoHelp, henv]),
    if_neg (by simp [autoVersionOk, henv]), if_neg (by simp [autoAuthorOk, henv]), hfind]
  simp only [harg]
  by_cases hc : takeNextAsOptValue nxt
  · rw [if_pos hc, if_pos hc]
    unfold cbStep
    rw [hcb]
    dsimp only
    rw [if_pos rfl, if_neg (by have := hrc (some nxt); omega)]
    simp
  · rw [if_neg hc, if_neg hc]
    unfold cbStep
    rw [hcb]
    dsimp only
    rw [if_pos rfl, if_neg (by have := hrc none; omega)]
    simp

/-- Long flag of kind None, no attached value. -/
theorem longOptStep_none_noval (ctx : Ctx) (opts : List cargs_opt) (aV aA : Bool)
    (counts : List Nat) {L : String} {o : cargs_opt} (henv : ctx.envc = none)
    (hfind : cargs_find_long opts L = some o) (harg : o.arg = CArgKind.kNone)
    (hcb : o.cb = true) (rest : List String)
    (hrc : 0 ≤ ctx.cbRet o none) :
    longOptStep ctx opts aV aA counts L none rest =
      StepRes.step [CEvent.call o none] (bumpGroup counts o.group) [] rest := by
  unfold longOptStep
  rw [if_neg (by simp), if_neg (by simp [autoHelp, henv]),
    if_neg (by simp [autoVersionOk, henv]), if_neg (by simp [autoAuthorOk, henv]), hfind]
  simp only [harg]
  unfold cbStep
  rw [hcb]
  dsimp only
  rw [if_pos rfl, if_neg (by omega)]
  simp

/-- A `-x...` token (first cluster char not `-`) enters the short-option
cluster branch. -/
theorem scanStep_short_enter (ctx : Ctx) (opts : List cargs_opt) (aV aA : Bool)
    (counts : List Nat) {x : Char} (hx : x ≠ '-') (tl : List Char)
    (rest : List String) :
    scanStep ctx opts aV aA counts [] (("-" ++ String.mk (x :: tl)) :: rest) =
      StepRes.step [] counts (x :: tl) rest := by
  unfold scanStep
  dsimp only
  rw [if_neg (by rw [dash_short_data]; simp), if_neg (dash_short_ne tl hx),
    if_neg (by rw [dash_short_data]; simp [hx])]
  rw [show ("-" ++ String.mk (x :: tl)).data.tail = x :: tl from by rw [dash_short_data]; rfl]

/-- Short required option with the value attached in the same token. -/
theorem scanStep_short_required_attached (ctx : Ctx) (opts : List cargs_opt)
    (aV aA : Bool) (counts : List Nat) {x : Char} {o : cargs_opt} {v : String}
    (henv : ctx.envc = none) (hfind : cargs_find_short opts x = some o)
    (harg : o.arg = CArgKind.kRequired) (hcb : o.cb = true) (hv : v.data ≠ [])
    (args : List String) (hrc : 0 ≤ ctx.cbRet o (some v)) :
    scanStep ctx opts aV aA counts (x :: v.data) args =
      StepRes.step [CEvent.call o (some v)] (bumpGroup counts o.group) [] args := by
  unfold scanStep
  dsimp only
  rw [if_neg (by simp [autoHelp, henv]), if_neg (by simp [autoVersionOk, henv]), hfind]
  simp only [harg]
  try dsimp only
  rw [if_neg hv]
  unfold cbStep
  rw [hcb]
  dsimp only
  rw [show String.mk v.data = v from rfl, if_pos rfl, if_neg (by omega)]
  simp

/-- Short required option, separated value: the next token is consumed even
if it begins with `-`. -/
theorem scanStep_short_required_sep (ctx : Ctx) (opts : List cargs_opt)
    (aV aA : Bool) (counts : List Nat) {x : Char} {o : cargs_opt}
    (henv : ctx.envc = none) (hfind : cargs_find_short opts x = some o)
    (harg : o.arg = CArgKind.kRequired) (hcb : o.cb = true)
    (a : String) (args2 : List String) (hrc : 0 ≤ ctx.cbRet o (some a)) :
    scanStep ctx opts aV aA counts [x] (a :: args2) =
      StepRes.step [CEvent.call o (some a)] (bumpGroup counts o.group) [] args2 := by
  unfold scanStep
  dsimp only
  rw [if_neg (by simp [autoHelp, henv]), if_neg (by simp [autoVersionOk, henv]), hfind]
  simp only [harg]
  try dsimp only
  simp only [if_true]
  unfold cbStep
  rw [hcb]
  dsimp only
  rw [if_pos rfl, if_neg (by omega)]
  simp

/-- Short optional option with no attached value and a following token: the
lookahead heuristic decides whether the next token is consumed. -/
theorem scanStep_short_optional_next (ctx : Ctx) (opts : List cargs_opt)
    (aV aA : Bool) (counts : List Nat) {x : Char} {o : cargs_opt}
    (henv : ctx.envc = none) (hfind : cargs_find_short opts x = some o)
    (harg : o.arg = CArgKind.kOptional) (hcb : o.cb = true)
    (nxt : String) (rest2 : List String) (hrc : ∀ w, 0 ≤ ctx.cbRet o w) :
    scanStep ctx opts aV aA counts [x] (nxt :: rest2) =
      (if takeNextAsOptValue nxt then
        StepRes.step [CEvent.call o (some nxt)] (bumpGroup counts o.group) [] rest2
      else
        StepRes.step [CEvent.call o none] (bumpGroup counts o.group) [] (nxt :: rest2)) := by
  unfold scanStep
  dsimp only
  rw [if_neg (by simp [autoHelp, henv]), if_neg (by simp [autoVersionOk, henv]), hfind]
  simp only [harg]
  try dsimp only
  simp only [if_true]
  by_cases hc : takeNextAsOptValue nxt
  · rw [if_pos hc, if_pos hc]
    unfold cbStep
    rw [hcb]
    dsimp only
    rw [if_pos rfl, if_neg (by have := hrc (some nxt); omega)]
    simp
  · rw [if_neg hc, if_neg hc]
    unfold cbStep
    rw [hcb]
    dsimp only
    rw [if_pos rfl, if_neg (by have := hrc none; omega)]
    simp

theorem string_ext {a b : String} (h : a.data = b.data) : a = b := by
  cases a; cases b; exact congrArg String.mk h

theorem find_long_single {o : cargs_opt} {L : String} (h : o.long_name = some L) :
    cargs_find_long [o] L = some o := by
  simp [cargs_find_long, List.find?, h]

theorem find_short_single {o : cargs_opt} {x : Char} (h : o.short_name = some x) :
    cargs_find_short [o] x = some o := by
  simp [cargs_find_short, List.find?, h]

/-! ## Claim C3 — the four spellings of a Required option's value

For a nonempty value all four forms agree; the counterexample below shows
that for the empty value the attached short form degenerates to a bare `-x`
and fails with MissingValue instead of invoking the callback. -/

def optJobs : cargs_opt :=
  ⟨some "jobs", some 'j', CArgKind.kRequired, true, none, none, 0, 0⟩

def cmdJobs : cargs_cmd := cargs_cmd.mk none [optJobs] [] [] [] none

/-- C3 (counterexample): at `v = ""` the attached form `-xv` is the bare
token `-j`; the level parse fails with MissingValue and the callback is never
invoked — not "invoked exactly once with the identical value v". -/
theorem C3_counterexample :
    cargs_parse_opts_level ctxPlain cmdJobs ["-j"] false false =
      ⟨[], LevelRes.err CARGS_ERR_MISSING_VAL⟩ ∧
    cargs_parse_opts_level ctxPlain cmdJobs ["--jobs", ""] false false =
      ⟨[CEvent.call optJobs (some "")], LevelRes.ok []⟩ := by
  constructor <;> decide

/-- C3 (amended): for every Required-kind option with a long name (nonempty,
free of `=`, shorter than the 96-byte split buffer) and a short character
other than `-`, and every NONEMPTY value `v`, the four argv forms
`--name v`, `--name=v`, `-xv` and `-x v` each invoke the callback exactly
once with the identical value `v`, consuming the value token (even when it
begins with `-`) and nothing else. -/
theorem C3_required_forms (ctx : Ctx) (o : cargs_opt) (L : String) (x : Char)
    (v : String) (counts : List Nat) (aV aA : Bool)
    (henv : ctx.envc = none)
    (hlong : o.long_name = some L) (hshort : o.short_name = some x)
    (harg : o.arg = CArgKind.kRequired) (hcb : o.cb = true)
    (hL : L ≠ "") (hLne : ∀ c ∈ L.data, c ≠ '=') (hL96 : L.length < 96)
    (hx : x ≠ '-') (hv : v ≠ "")
    (hrc : 0 ≤ ctx.cbRet o (some v)) :
    scanTokens ctx [o] aV aA counts [] ["--" ++ L, v] =
      ⟨[CEvent.call o (some v)], ScanRes.ok (bumpGroup counts o.group) []⟩ ∧
    scanTokens ctx [o] aV aA counts [] ["--" ++ L ++ "=" ++ v] =
      ⟨[CEvent.call o (some v)], ScanRes.ok (bumpGroup counts o.group) []⟩ ∧
    scanTokens ctx [o] aV aA counts [] ["-" ++ String.mk [x] ++ v] =
      ⟨[CEvent.call o (some v)], ScanRes.ok (bumpGroup counts o.group) []⟩ ∧
    scanTokens ctx [o] aV aA counts [] ["-" ++ String.mk [x], v] =
      ⟨[CEvent.call o (some v)], ScanRes.ok (bumpGroup counts o.group) []⟩ := by
  have hfl := find_long_single hlong
  have hfs := find_short_single hshort
  have hend : ∀ c, scanTokens ctx [o] aV aA c [] [] = ⟨[], ScanRes.ok c []⟩ :=
    fun c => scanTokens_halt (scanStep_nil ctx [o] aV aA c)
  refine ⟨?_, ?_, ?_, ?_⟩
  · rw [scanTokens_step ((scanStep_long ctx [o] aV aA counts hL hLne [v]).trans
      (longOptStep_required_sep ctx [o] aV aA counts henv hfl harg hcb v [] hrc))]
    rw [hend]
    simp [ScanOut.withEvents]
  · rw [scanTokens_step ((scanStep_long_eqform ctx [o] aV aA counts hLne v []).trans
      (longOptStep_required_eq ctx [o] aV aA counts henv hL96 hfl harg hcb v [] hrc))]
    rw [hend]
    simp [ScanOut.withEvents]
  · rw [show ("-" ++ String.mk [x] ++ v) = ("-" ++ String.mk (x :: v.data)) from
      string_ext (by simp [String.data_append])]
    rw [scanTokens_step (scanStep_short_enter ctx [o] aV aA counts hx v.data [])]
    rw [scanTokens_step (scanStep_short_required_attached ctx [o] aV aA counts henv hfs
      harg hcb (data_ne_nil hv) [] hrc)]
    rw [hend]
    simp [ScanOut.withEvents]
  · rw [scanTokens_step (scanStep_short_enter ctx [o] aV aA counts hx [] [v])]
    rw [scanTokens_step (scanStep_short_required_sep ctx [o] aV aA counts henv hfs
      harg hcb v [] hrc)]
    rw [hend]
    simp [ScanOut.withEvents]

theorem C3_required_forms_witness :
    scanTokens ctxPlain [optJobs] false false countsInit [] ["--jobs", "-10"] =
      ⟨[CEvent.call optJobs (some "-10")], ScanRes.ok (bumpGroup countsInit optJobs.group) []⟩ :=
  (C3_required_forms ctxPlain optJobs "jobs" 'j' "-10" countsInit false false rfl rfl rfl
    rfl rfl (by decide) (by decide) (by decide) (by decide) (by decide) (by decide)).1

/-! ## Claim C4 — value lookahead for Optional-kind options -/

theorem takeNextAsOptValue_iff (nxt : String) :
    takeNextAsOptValue nxt = true ↔
      nxt ≠ "--" ∧ (nxt.data.head? ≠ some '-' ∨ cargs_token_looks_numeric nxt = true) := by
  simp [takeNextAsOptValue]

/-- C4: for an Optional-kind option matched without an attached value (long
form `--name` or short form `-x`) with a following token `nxt`, the token is
consumed as the option's value exactly when `nxt` is not literally `--` and
either does not start with `-` or looks numeric; otherwise the callback is
invoked with no value and `nxt` is left in the stream. -/
theorem C4_optional_lookahead (ctx : Ctx) (o : cargs_opt) (L : String) (x : Char)
    (nxt : String) (rest : List String) (counts : List Nat) (aV aA : Bool)
    (henv : ctx.envc = none)
    (hlong : o.long_name = some L) (hshort : o.short_name = some x)
    (harg : o.arg = CArgKind.kOptional) (hcb : o.cb = true)
    (hL : L ≠ "") (hLne : ∀ c ∈ L.data, c ≠ '=') (hx : x ≠ '-')
    (hrc : ∀ w, 0 ≤ ctx.cbRet o w) :
    ((nxt ≠ "--" ∧ (nxt.data.head? ≠ some '-' ∨ cargs_token_looks_numeric nxt = true)) →
      (scanTokens ctx [o] aV aA counts [] (("--" ++ L) :: nxt :: rest) =
        (scanTokens ctx [o] aV aA (bumpGroup counts o.group) [] rest).withEvents
          [CEvent.call o (some nxt)] ∧
       scanTokens ctx [o] aV aA counts [] (("-" ++ String.mk [x]) :: nxt :: rest) =
        (scanTokens ctx [o] aV aA (bumpGroup counts o.group) [] rest).withEvents
          [CEvent.call o (some nxt)])) ∧
    (¬(nxt ≠ "--" ∧ (nxt.data.head? ≠ some '-' ∨ cargs_token_looks_numeric nxt = true)) →
      (scanTokens ctx [o] aV aA counts [] (("--" ++ L) :: nxt :: rest) =
        (scanTokens ctx [o] aV aA (bumpGroup counts o.group) [] (nxt :: rest)).withEvents
          [CEvent.call o none] ∧
       scanTokens ctx [o] aV aA counts [] (("-" ++ String.mk [x]) :: nxt :: rest) =
        (scanTokens ctx [o] aV aA (bumpGroup counts o.group) [] (nxt :: rest)).withEvents
          [CEvent.call o none])) := by
  have hfl := find_long_single hlong
  have hfs := find_short_single hshort
  constructor
  · intro hC
    have hC' : takeNextAsOptValue nxt = true := (takeNextAsOptValue_iff nxt).mpr hC
    constructor
    · exact scanTokens_step ((scanStep_long ctx [o] aV aA counts hL hLne
        (nxt :: rest)).trans ((longOptStep_optional_next ctx [o] aV aA counts henv hfl
          harg hcb nxt rest hrc).trans (if_pos hC')))
    · rw [scanTokens_step (scanStep_short_enter ctx [o] aV aA counts hx [] (nxt :: rest))]
      rw [scanTokens_step ((scanStep_short_optional_next ctx [o] aV aA counts henv hfs
        harg hcb nxt rest hrc).trans (if_pos hC'))]
      simp [ScanOut.withEvents]
  · intro hC
    have hC' : ¬ takeNextAsOptValue nxt = true := fun h =>
      hC ((takeNextAsOptValue_iff nxt).mp h)
    constructor
    · exact scanTokens_step ((scanStep_long ctx [o] aV aA counts hL hLne
        (nxt :: rest)).trans ((longOptStep_optional_next ctx [o] aV aA counts henv hfl
          harg hcb nxt rest hrc).trans (if_neg hC')))
    · rw [scanTokens_step (scanStep_short_enter ctx [o] aV aA counts hx [] (nxt :: rest))]
      rw [scanTokens_step ((scanStep_short_optional_next ctx [o] aV aA counts henv hfs
        harg hcb nxt rest hrc).trans (if_neg hC'))]
      simp [ScanOut.withEvents]

def optLevel : cargs_opt :=
  ⟨some "level", some 'l', CArgKind.kOptional, true, none, none, 0, 0⟩

theorem C4_optional_lookahead_witness :
    ((("-12" : String) ≠ "--" ∧
        (("-12" : String).data.head? ≠ some '-' ∨
          cargs_token_looks_numeric "-12" = true)) ∧
      scanTokens ctxPlain [optLevel] false false countsInit [] ["--level", "-12"] =
        (scanTokens ctxPlain [optLevel] false false
            (bumpGroup countsInit optLevel.group) [] []).withEvents
          [CEvent.call optLevel (some "-12")]) ∧
    (¬(("--files" : String) ≠ "--" ∧
        (("--files" : String).data.head? ≠ some '-' ∨
          cargs_token_looks_numeric "--files" = true)) ∧
      scanTokens ctxPlain [optLevel] false false countsInit [] ["--level", "--files"] =
        (scanTokens ctxPlain [optLevel] false false
            (bumpGroup countsInit optLevel.group) [] ["--files"]).withEvents
          [CEvent.call optLevel none]) := by
  refine ⟨⟨by decide, ?_⟩, ⟨by decide, ?_⟩⟩
  · exact ((C4_optional_lookahead ctxPlain optLevel "level" 'l' "-12" [] countsInit
      false false rfl rfl rfl rfl rfl (by decide) (by decide) (by decide)
      (fun w => le_refl 0)).1 (by decide)).1
  · exact ((C4_optional_lookahead ctxPlain optLevel "level" 'l' "--files" [] countsInit
      false false rfl rfl rfl rfl rfl (by decide) (by decide) (by decide)
      (fun w => le_refl 0)).2 (by decide)).1

/-! ## Claim C5 — group-policy enforcement and the group-32 mask truncation

The membership masks are `uint32_t` but group ids run 1..32; `|= (1ull << 32)`
truncates to zero, so a mutually-exclusive (or exactly-one) policy declared on
group 32 is silently never enforced, while the identical schema on group 31
is. -/

def oX31a : cargs_opt := ⟨some "alpha", some 'a', CArgKind.kNone, true, none, none, 31, CARGS_GRP_XOR⟩
def oX31b : cargs_opt := ⟨some "beta", some 'b', CArgKind.kNone, true, none, none, 31, CARGS_GRP_XOR⟩
def oX32a : cargs_opt := ⟨some "alpha", some 'a', CArgKind.kNone, true, none, none, 32, CARGS_GRP_XOR⟩
def oX32b : cargs_opt := ⟨some "beta", some 'b', CArgKind.kNone, true, none, none, 32, CARGS_GRP_XOR⟩

def cmdX31 : cargs_cmd := cargs_cmd.mk none [oX31a, oX31b] [] [] [] none
def cmdX32 : cargs_cmd := cargs_cmd.mk none [oX32a, oX32b] [] [] [] none

/-- C5 (code bug): with two MutuallyExclusive options in group 31, matching
both yields the GroupViolation failure as claimed; the identical schema moved
to group 32 — a legal id, counted by the same `counts[33]` array — succeeds,
because the `uint32_t` membership mask drops bit 32 (`xor_mask` is 2^31 for
group 31 but 0 for group 32), so the scan's counter of 2 is never checked. -/
theorem C5_group32_not_enforced :
    cargs_group_masks [oX31a, oX31b] = (2 ^ 31, 0) ∧
    cargs_group_masks [oX32a, oX32b] = (0, 0) ∧
    cargs_parse_opts_level ctxPlain cmdX31 ["-a", "-b"] false false =
      ⟨[CEvent.call oX31a none, CEvent.call oX31b none], LevelRes.err CARGS_ERR_GROUP⟩ ∧
    cargs_parse_opts_level ctxPlain cmdX32 ["-a", "-b"] false false =
      ⟨[CEvent.call oX32a none, CEvent.call oX32b none], LevelRes.ok []⟩ ∧
    (scanTokens ctxPlain [oX32a, oX32b] false false countsInit [] ["-a", "-b"]).res =
      ScanRes.ok (bumpGroup (bumpGroup countsInit 32) 32) [] ∧
    (bumpGroup (bumpGroup countsInit 32) 32).getD 32 0 = 2 := by
  refine ⟨by decide, by decide, by decide, by decide, by decide, by decide⟩

/-! ## Claim C6 — the env/default overlay and double counting -/

def oDef : cargs_opt :=
  ⟨some "mode", some 'm', CArgKind.kNone, true, some "MODE_ENV", some "fast", 31, CARGS_GRP_XOR⟩

def cmdDef : cargs_cmd := cargs_cmd.mk none [oDef] [] [] [] none

def ctxEnvSet : Ctx :=
  ⟨none, fun e => if e = "MODE_ENV" then some "slow" else none, fun _ _ => 0,
    fun i _ => (i : Int)⟩

/-- C6: the env/default overlay runs over the level's options in declaration
order before any command-line token is scanned (the level's events are the
overlay events followed by the scan events, and the scan starts from the
overlay's counters); a set environment variable wins over the static default,
an unset one falls back to it; each overlay invocation bumps the option's
group counter, and an explicit command-line match bumps it again, so a
defaulted option in a MutuallyExclusive group reaches a counter of 2 and the
level fails with the GroupViolation code. -/
theorem C6_env_default_overlay :
    (∀ (ctx : Ctx) (o : cargs_opt) (rest : List cargs_opt) (counts : List Nat)
        (e v : String), o.env = some e → ctx.getEnv e = some v → o.cb = true →
      cargs_apply_env_defaults_level ctx (o :: rest) counts =
        (CEvent.call o (some v) ::
            (cargs_apply_env_defaults_level ctx rest (bumpGroup counts o.group)).1,
          (cargs_apply_env_defaults_level ctx rest (bumpGroup counts o.group)).2)) ∧
    (∀ (ctx : Ctx) (o : cargs_opt) (rest : List cargs_opt) (counts : List Nat)
        (e d : String), o.env = some e → ctx.getEnv e = none → o.defv = some d →
        o.cb = true →
      cargs_apply_env_defaults_level ctx (o :: rest) counts =
        (CEvent.call o (some d) ::
            (cargs_apply_env_defaults_level ctx rest (bumpGroup counts o.group)).1,
          (cargs_apply_env_defaults_level ctx rest (bumpGroup counts o.group)).2)) ∧
    (∀ (ctx : Ctx) (cmd : cargs_cmd) (args : List String) (aV aA : Bool),
      (cargs_parse_opts_level ctx cmd args aV aA).events =
        (cargs_apply_env_defaults_level ctx cmd.opts countsInit).1 ++
          (scanTokens ctx cmd.opts aV aA
            (cargs_apply_env_defaults_level ctx cmd.opts countsInit).2 [] args).events) ∧
    cargs_parse_opts_level ctxEnvSet cmdDef [] false false =
      ⟨[CEvent.call oDef (some "slow")], LevelRes.ok []⟩ ∧
    cargs_parse_opts_level ctxPlain cmdDef ["--mode"] false false =
      ⟨[CEvent.call oDef (some "fast"), CEvent.call oDef none],
        LevelRes.err CARGS_ERR_GROUP⟩ ∧
    (scanTokens ctxPlain [oDef] false false
        (cargs_apply_env_defaults_level ctxPlain [oDef] countsInit).2 [] ["--mode"]).res =
      ScanRes.ok (bumpGroup (bumpGroup countsInit 31) 31) [] ∧
    (bumpGroup (bumpGroup countsInit 31) 31).getD 31 0 = 2 := by
  refine ⟨?_, ?_, ?_, by decide, by decide, by decide, by decide⟩
  · intro ctx o rest counts e v h1 h2 h3
    simp only [cargs_apply_env_defaults_level, h1, h2, h3, if_true]
  · intro ctx o rest counts e d h1 h2 h3 h4
    simp only [cargs_apply_env_defaults_level, h1, h2, h3, h4, if_true]
  · intro ctx cmd args aV aA
    unfold cargs_parse_opts_level
    dsimp only
    split
    any_goals rfl
    split <;> rfl

theorem C6_env_default_overlay_witness :
    cargs_apply_env_defaults_level ctxEnvSet [oDef] countsInit =
      (CEvent.call oDef (some "slow") ::
          (cargs_apply_env_defaults_level ctxEnvSet []
            (bumpGroup countsInit oDef.group)).1,
        (cargs_apply_env_defaults_level ctxEnvSet []
          (bumpGroup countsInit oDef.group)).2) ∧
    cargs_apply_env_defaults_level ctxPlain [oDef] countsInit =
      (CEvent.call oDef (some "fast") ::
          (cargs_apply_env_defaults_level ctxPlain []
            (bumpGroup countsInit oDef.group)).1,
        (cargs_apply_env_defaults_level ctxPlain []
          (bumpGroup countsInit oDef.group)).2) :=
  ⟨C6_env_default_overlay.1 ctxEnvSet oDef [] countsInit "MODE_ENV" "slow" rfl
      (by decide) rfl,
    C6_env_default_overlay.2.1 ctxPlain oDef [] countsInit "MODE_ENV" "fast" rfl rfl
      rfl rfl⟩

/-! ## Claim C7 — positional arity validation -/

theorem pos_foldl_char (pos : List cargs_pos) (a : PosAcc)
    (hmin : a.smin + (pos.map cargs_pos.min).sum < 2 ^ 32)
    (hmax : a.smax +
      ((pos.filter fun p => p.max != CARGS_POS_INF).map cargs_pos.max).sum < 2 ^ 32) :
    pos.foldl cargs_pos_step a =
      ⟨a.smin + (pos.map cargs_pos.min).sum,
        a.smax +
          ((pos.filter fun p => p.max != CARGS_POS_INF).map cargs_pos.max).sum,
        (a.inf || pos.any fun p => p.max == CARGS_POS_INF)⟩ := by
  induction pos generalizing a with
  | nil => simp
  | cons p ps ih =>
    simp only [List.map_cons, List.sum_cons] at hmin
    rw [List.foldl_cons]
    by_cases hinf : p.max = CARGS_POS_INF
    · have hfc : ((p :: ps).filter fun q => q.max != CARGS_POS_INF) =
          ps.filter fun q => q.max != CARGS_POS_INF := by
        simp [List.filter_cons, hinf]
      rw [hfc] at hmax ⊢
      have hlt1 : a.smin + p.min < 2 ^ 32 := by omega
      have hstep : cargs_pos_step a p = ⟨a.smin + p.min, a.smax, true⟩ := by
        unfold cargs_pos_step
        rw [Nat.mod_eq_of_lt hlt1]
        simp [hinf]
      rw [hstep, ih ⟨a.smin + p.min, a.smax, true⟩ (by dsimp only; omega) (by dsimp only; omega)]
      simp [hinf, List.any_cons, Nat.add_assoc]
    · have hfc : ((p :: ps).filter fun q => q.max != CARGS_POS_INF) =
          p :: ps.filter fun q => q.max != CARGS_POS_INF := by
        simp [List.filter_cons, hinf]
      rw [hfc] at hmax ⊢
      simp only [List.map_cons, List.sum_cons] at hmax
      have hlt1 : a.smin + p.min < 2 ^ 32 := by omega
      have hlt2 : a.smax + p.max < 2 ^ 32 := by omega
      have hstep : cargs_pos_step a p = ⟨a.smin + p.min, a.smax + p.max, a.inf⟩ := by
        unfold cargs_pos_step
        rw [Nat.mod_eq_of_lt hlt1, if_neg hinf, Nat.mod_eq_of_lt hlt2]
        simp [hinf]
      rw [hstep, ih ⟨a.smin + p.min, a.smax + p.max, a.inf⟩
        (by dsimp only; omega) (by dsimp only; omega)]
      simp only [List.any_cons, List.map_cons, List.sum_cons, Nat.add_assoc, PosAcc.mk.injEq]
      refine ⟨trivial, trivial, ?_⟩
      rw [show (p.max == CARGS_POS_INF) = false from beq_eq_false_iff_ne.mpr hinf]
      simp

/-- C7: for a nonempty, overflow-free schema whose segments satisfy
`min ≤ max`, validation fails with the Positional code iff the leftover count
is below the sum of the minima, fails with the TooMany code iff no segment is
unbounded and the count exceeds the sum of the maxima, and succeeds otherwise;
in particular the schema `{min 1, max ∞}, {min 1, max 1}` rejects counts 0 and
1 and accepts every count of at least 2. -/
theorem C7_positional_validation :
    (∀ (pos : List cargs_pos) (n : Int), pos ≠ [] →
        (∀ p ∈ pos, p.min ≤ p.max) →
        (pos.map cargs_pos.min).sum < 2 ^ 31 →
        ((pos.filter fun p => p.max != CARGS_POS_INF).map cargs_pos.max).sum < 2 ^ 31 →
      (cargs_validate_positional pos n = CARGS_ERR_POSITIONAL ↔
          n < ((pos.map cargs_pos.min).sum : Int)) ∧
      (cargs_validate_positional pos n = CARGS_ERR_TOO_MANY ↔
          (∀ p ∈ pos, p.max ≠ CARGS_POS_INF) ∧
          (((pos.filter fun p => p.max != CARGS_POS_INF).map cargs_pos.max).sum : Int) < n) ∧
      (cargs_validate_positional pos n = CARGS_OK ↔
          ¬ n < ((pos.map cargs_pos.min).sum : Int) ∧
          ¬((∀ p ∈ pos, p.max ≠ CARGS_POS_INF) ∧
            (((pos.filter fun p => p.max != CARGS_POS_INF).map cargs_pos.max).sum : Int) < n))) ∧
    (∀ k : Nat, cargs_validate_positional [⟨1, CARGS_POS_INF⟩, ⟨1, 1⟩] (k : Int) =
        if k < 2 then CARGS_ERR_POSITIONAL else CARGS_OK) := by
  constructor
  · intro pos n hne hsane hbmin hbmax
    have hforall : ¬ (pos.any fun p => p.max == CARGS_POS_INF) = true ↔
        ∀ p ∈ pos, p.max ≠ CARGS_POS_INF := by
      simp [List.any_eq_true]
    have hminmax : (∀ p ∈ pos, p.max ≠ CARGS_POS_INF) →
        (pos.map cargs_pos.min).sum ≤
          ((pos.filter fun p => p.max != CARGS_POS_INF).map cargs_pos.max).sum := by
      intro hni
      rw [List.filter_eq_self.mpr (fun p hp => by simpa using hni p hp)]
      exact List.sum_le_sum (fun p hp => hsane p hp)
    unfold cargs_validate_positional
    rw [if_neg hne]
    rw [pos_foldl_char pos ⟨0, 0, false⟩ (by dsimp only; omega) (by dsimp only; omega)]
    dsimp only
    simp only [Nat.zero_add, Bool.false_or]
    rw [show int_of_uint32 (pos.map cargs_pos.min).sum =
        ((pos.map cargs_pos.min).sum : Int) from by
      unfold int_of_uint32; rw [if_pos hbmin]]
    rw [show int_of_uint32
          ((pos.filter fun p => p.max != CARGS_POS_INF).map cargs_pos.max).sum =
        (((pos.filter fun p => p.max != CARGS_POS_INF).map cargs_pos.max).sum : Int) from by
      unfold int_of_uint32; rw [if_pos hbmax]]
    refine ⟨?_, ?_, ?_⟩ <;> split_ifs with h1 h2
    · exact iff_of_true rfl h1
    · exact iff_of_false (by decide) h1
    · exact iff_of_false (by decide) h1
    · refine iff_of_false (by decide) ?_
      rintro ⟨hni, hlt⟩
      have := hminmax hni
      omega
    · exact iff_of_true rfl ⟨hforall.mp h2.1, h2.2⟩
    · refine iff_of_false (by decide) ?_
      rintro ⟨hni, hlt⟩
      exact h2 ⟨hforall.mpr hni, hlt⟩
    · refine iff_of_false (by decide) ?_
      rintro ⟨hge, _⟩
      exact hge h1
    · refine iff_of_false (by decide) ?_
      rintro ⟨_, hno⟩
      exact hno ⟨hforall.mp h2.1, h2.2⟩
    · exact iff_of_true rfl ⟨h1, fun hc => h2 ⟨hforall.mpr hc.1, hc.2⟩⟩
  · intro k
    have hred : cargs_validate_positional [⟨1, CARGS_POS_INF⟩, ⟨1, 1⟩] (k : Int) =
        if (k : Int) < 2 then CARGS_ERR_POSITIONAL else CARGS_OK := by
      unfold cargs_validate_positional
      rw [if_neg (by simp)]
      rw [show ([⟨1, CARGS_POS_INF⟩, ⟨1, 1⟩] : List cargs_pos).foldl cargs_pos_step
          ⟨0, 0, false⟩ = ⟨2, 1, true⟩ from by decide]
      dsimp only
      rw [show int_of_uint32 2 = (2 : Int) from by decide]
      simp
    rw [hred]
    by_cases hk : k < 2
    · rw [if_pos (by exact_mod_cast hk), if_pos hk]
    · rw [if_neg (by omega), if_neg hk]

theorem C7_positional_validation_witness :
    cargs_validate_positional [⟨2, 3⟩] 5 = CARGS_OK ↔
      ¬ (5 : Int) < ((([⟨2, 3⟩] : List cargs_pos).map cargs_pos.min).sum : Int) ∧
      ¬((∀ p ∈ ([⟨2, 3⟩] : List cargs_pos), p.max ≠ CARGS_POS_INF) ∧
        (((([⟨2, 3⟩] : List cargs_pos).filter fun p => p.max != CARGS_POS_INF).map
            cargs_pos.max).sum : Int) < 5) :=
  (C7_positional_validation.1 [⟨2, 3⟩] 5 (by decide) (by decide) (by decide)
    (by decide)).2.2

/-! ## Claim C8 — case-insensitive unit suffixes in byte-size parsing -/

/-- C8: the unit-suffix switch works on upper-cased characters; a trailing
`i` (optionally followed by `B`) after the unit letter forces radix 1024
regardless of the caller preference, a bare unit letter uses the caller
radix (1000 for the SI entry point, 1024 for the IEC one), a trailing `B`
adds no multiplier, an unrecognized unit letter fails, and leftover content
after the suffix fails; `cargs_read_size_iec "128MiB" = 134217728` and
`cargs_read_size_si "5MB" = 5000000`. -/
theorem C8_size_suffix :
    (∀ (p : Bool) (u ci : Char) (pw : Nat), letterPow (upChar u) = some pw →
        upChar ci = 'I' →
      cargs_size_suffix p [u, ci] = some (1024 ^ pw, []) ∧
      ∀ cb, upChar cb = 'B' →
        cargs_size_suffix p [u, ci, cb] = some (1024 ^ pw, [])) ∧
    (∀ (p : Bool) (u : Char) (pw : Nat), letterPow (upChar u) = some pw →
      cargs_size_suffix p [u] = some ((if p then 1024 else 1000) ^ pw, [])) ∧
    (∀ (p : Bool) (u cb : Char) (pw : Nat), letterPow (upChar u) = some pw →
        upChar cb = 'B' →
      cargs_size_suffix p [u, cb] = some ((if p then 1024 else 1000) ^ pw, [])) ∧
    (∀ (p : Bool) (cb : Char) (rest : List Char), upChar cb = 'B' →
      cargs_size_suffix p (cb :: rest) = some (1, rest)) ∧
    (∀ (p : Bool) (c : Char) (rest : List Char), upChar c ≠ 'B' →
        letterPow (upChar c) = none →
      cargs_size_suffix p (c :: rest) = none) ∧
    (cargs_read_size_iec "128MiB" = some 134217728 ∧
      cargs_read_size_si "5MB" = some 5000000 ∧
      cargs_read_size_si "1KiB" = some 1024 ∧
      cargs_read_size_si "1K" = some 1000 ∧
      cargs_read_size_iec "1K" = some 1024 ∧
      cargs_read_size_si "2KX" = none ∧
      cargs_read_size_si "12abc" = none) := by
  refine ⟨?_, ?_, ?_, ?_, ?_, by decide, by decide, by decide, by decide, by decide,
    by decide, by decide⟩
  · intro p u ci pw hu hci
    have hub : upChar u ≠ 'B' := by
      intro h
      rw [h, show letterPow 'B' = none from by decide] at hu
      exact Option.noConfusion hu
    constructor
    · unfold cargs_size_suffix
      dsimp only
      rw [show List.getD [u, ci] 1 (Char.ofNat 0) = ci from rfl,
        show List.getD [u, ci] 2 (Char.ofNat 0) = Char.ofNat 0 from rfl,
        hci, if_neg hub, hu]
      dsimp only
      rw [if_pos (show ('I' : Char) = 'I' ∧
          (upChar (Char.ofNat 0) = 'B' ∨ upChar (Char.ofNat 0) = Char.ofNat 0) from
        ⟨rfl, Or.inr (by decide)⟩)]
      rw [if_pos (rfl : ('I' : Char) = 'I'),
        if_neg (by decide : ¬ upChar (Char.ofNat 0) = 'B')]
      rfl
    · intro cb hcb
      unfold cargs_size_suffix
      dsimp only
      rw [show List.getD [u, ci, cb] 1 (Char.ofNat 0) = ci from rfl,
        show List.getD [u, ci, cb] 2 (Char.ofNat 0) = cb from rfl,
        hci, hcb, if_neg hub, hu]
      dsimp only
      rw [if_pos (show ('I' : Char) = 'I' ∧
          (('B' : Char) = 'B' ∨ ('B' : Char) = Char.ofNat 0) from ⟨rfl, Or.inl rfl⟩)]
      rw [if_pos (rfl : ('I' : Char) = 'I'), if_pos (rfl : ('B' : Char) = 'B')]
      rfl
  · intro p u pw hu
    have hub : upChar u ≠ 'B' := by
      intro h
      rw [h, show letterPow 'B' = none from by decide] at hu
      exact Option.noConfusion hu
    unfold cargs_size_suffix
    dsimp only
    rw [show List.getD [u] 1 (Char.ofNat 0) = Char.ofNat 0 from rfl,
      show List.getD [u] 2 (Char.ofNat 0) = Char.ofNat 0 from rfl,
      if_neg hub, hu]
    dsimp only
    rw [if_neg (by decide : ¬ upChar (Char.ofNat 0) = 'I'),
      if_neg (by decide : ¬(upChar (Char.ofNat 0) = 'I' ∧
        (upChar (Char.ofNat 0) = 'B' ∨ upChar (Char.ofNat 0) = Char.ofNat 0))),
      if_neg (by decide : ¬ upChar (Char.ofNat 0) = 'B')]
    cases p <;> simp
  · intro p u cb pw hu hcb
    have hub : upChar u ≠ 'B' := by
      intro h
      rw [h, show letterPow 'B' = none from by decide] at hu
      exact Option.noConfusion hu
    unfold cargs_size_suffix
    dsimp only
    rw [show List.getD [u, cb] 1 (Char.ofNat 0) = cb from rfl,
      show List.getD [u, cb] 2 (Char.ofNat 0) = Char.ofNat 0 from rfl,
      hcb, if_neg hub, hu]
    dsimp only
    rw [if_neg (by decide : ¬(('B' : Char) = 'I')),
      if_neg (by decide : ¬(('B' : Char) = 'I' ∧
        (upChar (Char.ofNat 0) = 'B' ∨ upChar (Char.ofNat 0) = Char.ofNat 0))),
      if_pos rfl]
    cases p <;> simp
  · intro p cb rest hcb
    unfold cargs_size_suffix
    dsimp only
    rw [hcb, if_pos rfl]
  · intro p c rest hB hnone
    unfold cargs_size_suffix
    dsimp only
    rw [if_neg hB, hnone]

theorem C8_size_suffix_witness :
    cargs_size_suffix true ['m', 'i'] = some (1024 ^ 2, []) ∧
    cargs_size_suffix false ['k'] = some ((if false then 1024 else 1000) ^ 1, []) :=
  ⟨(C8_size_suffix.1 true 'm' 'i' 2 (by decide) (by decide)).1,
    C8_size_suffix.2.1 false 'k' 1 (by decide)⟩

end CArgsParser